import Mathlib

/-!
# fdroid-bridge: verification of the metadata store and index builder

Shallow embedding of `fdroid_bridge/metadata.py`, `fdroid_bridge/index.py` and
`fdroid_bridge/errors.py`.

Modelling choices:
* Python/JSON values are the inductive `JValue`.  JSON numbers are modelled as
  integers (`Int`); floating-point numerals are outside the embedding.  A Python
  `dict` is an association list with first-match lookup; dictionaries built by
  the code itself are produced through `insertPy`, which mirrors Python's
  insertion semantics (update in place, else append), so their keys are unique.
* Python truthiness (`not value`) is `truthy`; `isinstance(value, int)` is
  `isPyInt` (`bool` is a subclass of `int` in Python, so booleans count).
* The filesystem is a map `String → Option String` from paths to file contents.
* `json.dumps(·, indent=2, ensure_ascii=False)` and `json.loads` are modelled by
  `json_dumps` / `json_loads` below, faithful to CPython's pretty printer and
  scanner on the integer-numeral fragment.
-/

inductive JValue where
  | null
  | bool (b : Bool)
  | int (n : Int)
  | str (s : String)
  | arr (xs : List JValue)
  | obj (fs : List (String × JValue))

/-- First-match lookup in an association list, i.e. `d[k]` / `k in d` for a
Python dict (whose keys are unique). -/
def lookupPy : List (String × JValue) → String → Option JValue
  | [], _ => none
  | (k, v) :: rest, key => if k = key then some v else lookupPy rest key

/-- Python truthiness: `bool(v)`, the meaning of `not metadata[field]`. -/
def truthy : JValue → Bool
  | .null => false
  | .bool b => b
  | .int n => n != 0
  | .str s => s != ""
  | .arr xs => !xs.isEmpty
  | .obj fs => !fs.isEmpty

/-- `isinstance(v, int)` — in Python `bool` is a subclass of `int`. -/
def isPyInt : JValue → Bool
  | .int _ => true
  | .bool _ => true
  | _ => false

/-- The integer value of a Python int (booleans are 1 / 0). -/
def pyIntVal : JValue → Int
  | .int n => n
  | .bool b => if b then 1 else 0
  | _ => 0

/-- `required_fields` in `validate_metadata` (metadata.py lines 62). -/
def requiredFields : List String :=
  ["name", "summary", "description", "version_code", "version_name"]

/-- One iteration of the `for field in required_fields` loop of
`validate_metadata` (metadata.py lines 64-68): the messages it appends. -/
def fieldCheck (metadata : List (String × JValue)) (field : String) : List String :=
  match lookupPy metadata field with
  | none => ["Missing required field: " ++ field]
  | some v => if truthy v then [] else ["Empty required field: " ++ field]

/-- The `if "version_code" in metadata` block of `validate_metadata`
(metadata.py lines 70-74): the messages it appends. -/
def versionCodeCheck (metadata : List (String × JValue)) : List String :=
  match lookupPy metadata "version_code" with
  | none => []
  | some v =>
    if !isPyInt v then ["version_code must be an integer"]
    else if pyIntVal v < 0 then ["version_code must be non-negative"]
    else []

/-- `validate_metadata` (metadata.py lines 53-77): the loop accumulates the
per-field messages in order, then the `version_code` block appends its own. -/
def validate_metadata (metadata : List (String × JValue)) : List String :=
  requiredFields.foldl (fun errs f => errs ++ fieldCheck metadata f) []
    ++ versionCodeCheck metadata

-- ## The JSON serializer: `json.dumps(·, indent=2, ensure_ascii=False)`

/-- Lowercase hexadecimal digit, as produced by CPython's `'\\u%04x' % code`. -/
def hexChar : Nat → Char
  | 0 => '0' | 1 => '1' | 2 => '2' | 3 => '3' | 4 => '4' | 5 => '5' | 6 => '6'
  | 7 => '7' | 8 => '8' | 9 => '9' | 10 => 'a' | 11 => 'b' | 12 => 'c'
  | 13 => 'd' | 14 => 'e' | _ => 'f'

/-- Decimal digit character. -/
def digitChar : Nat → Char
  | 0 => '0' | 1 => '1' | 2 => '2' | 3 => '3' | 4 => '4'
  | 5 => '5' | 6 => '6' | 7 => '7' | 8 => '8' | _ => '9'

/-- Decimal digits of `n`, most significant first (empty for `0`). -/
def natDigits (n : Nat) : List Char :=
  if n = 0 then [] else natDigits (n / 10) ++ [digitChar (n % 10)]
decreasing_by exact Nat.div_lt_self (Nat.pos_of_ne_zero (by assumption)) (by norm_num)

/-- Decimal numeral of a natural number, as Python prints it. -/
def natChars (n : Nat) : List Char :=
  if n = 0 then ['0'] else natDigits n

/-- Decimal numeral of an integer, as Python prints it. -/
def intChars (n : Int) : List Char :=
  if n < 0 then '-' :: natChars n.natAbs else natChars n.natAbs

/-- CPython's string-escape table for `json.dumps` with `ensure_ascii=False`:
quote, backslash and the five short control escapes are escaped, every other
control character below U+0020 becomes `\\u00xx`, everything else (including
non-ASCII) is emitted literally. -/
def escapeChar (c : Char) : List Char :=
  if c = '"' then ['\\', '"']
  else if c = '\\' then ['\\', '\\']
  else if c = '\n' then ['\\', 'n']
  else if c = '\t' then ['\\', 't']
  else if c = '\r' then ['\\', 'r']
  else if c = '\x08' then ['\\', 'b']
  else if c = '\x0c' then ['\\', 'f']
  else if c.toNat < 32 then
    ['\\', 'u', '0', '0', hexChar (c.toNat / 16), hexChar (c.toNat % 16)]
  else [c]

/-- A JSON string literal: quote, escaped body, quote. -/
def quoteString (s : String) : List Char :=
  '"' :: (s.data.map escapeChar).flatten ++ ['"']

/-- The indentation written by `json.dumps(·, indent=2)` at nesting `level`. -/
def indentChars (level : Nat) : List Char :=
  List.replicate (2 * level) ' '

mutual

/-- `json.dumps(v, indent=2, ensure_ascii=False)` at nesting `level`, on the
integer-numeral fragment of JSON (floats are outside the embedding). -/
def dumpVal : Nat → JValue → List Char
  | _, .null => ['n', 'u', 'l', 'l']
  | _, .bool true => ['t', 'r', 'u', 'e']
  | _, .bool false => ['f', 'a', 'l', 's', 'e']
  | _, .int n => intChars n
  | _, .str s => quoteString s
  | _, .arr [] => ['[', ']']
  | level, .arr (x :: xs) =>
      '[' :: '\n' :: indentChars (level + 1) ++ dumpVal (level + 1) x
        ++ dumpItems (level + 1) xs ++ '\n' :: indentChars level ++ [']']
  | _, .obj [] => ['{', '}']
  | level, .obj (f :: fs) =>
      '{' :: '\n' :: indentChars (level + 1) ++ dumpField (level + 1) f
        ++ dumpFields (level + 1) fs ++ '\n' :: indentChars level ++ ['}']

/-- The remaining array items, each preceded by the `",\n" + indent`
separator. -/
def dumpItems : Nat → List JValue → List Char
  | _, [] => []
  | level, x :: xs =>
      ',' :: '\n' :: indentChars level ++ dumpVal level x ++ dumpItems level xs

/-- One `"key": value` member. -/
def dumpField : Nat → String × JValue → List Char
  | level, (k, v) => quoteString k ++ ':' :: ' ' :: dumpVal level v

/-- The remaining object members, each preceded by the separator. -/
def dumpFields : Nat → List (String × JValue) → List Char
  | _, [] => []
  | level, f :: fs =>
      ',' :: '\n' :: indentChars level ++ dumpField level f ++ dumpFields level fs

end

/-- `json.dumps(metadata, indent=2, ensure_ascii=False)`. -/
def json_dumps (v : JValue) : String :=
  String.mk (dumpVal 0 v)

-- ## The JSON scanner: `json.loads`

/-- The whitespace characters the CPython JSON scanner skips. -/
def isWsChar (c : Char) : Bool :=
  c = ' ' || c = '\t' || c = '\n' || c = '\r'

/-- Skip whitespace between tokens. -/
def skipWs (cs : List Char) : List Char :=
  cs.dropWhile isWsChar

/-- ASCII decimal digit test. -/
def isDigitChar (c : Char) : Bool :=
  '0' ≤ c && c ≤ '9'

/-- Value of an ASCII decimal digit. -/
def digitVal (c : Char) : Nat :=
  c.toNat - 48

/-- Value of a hexadecimal digit, as accepted in a `\\uXXXX` escape. -/
def hexVal (c : Char) : Option Nat :=
  if '0' ≤ c && c ≤ '9' then some (c.toNat - 48)
  else if 'a' ≤ c && c ≤ 'f' then some (c.toNat - 87)
  else if 'A' ≤ c && c ≤ 'F' then some (c.toNat - 55)
  else none

/-- Four hexadecimal digits of a `\\uXXXX` escape. -/
def parseHex4 : List Char → Option (Nat × List Char)
  | a :: b :: c :: d :: rest =>
    match hexVal a, hexVal b, hexVal c, hexVal d with
    | some va, some vb, some vc, some vd =>
        some (((va * 16 + vb) * 16 + vc) * 16 + vd, rest)
    | _, _, _, _ => none
  | _ => none

/-- The two-character escapes accepted after a backslash. -/
def unescapeChar : Char → Option Char
  | '"' => some '"'
  | '\\' => some '\\'
  | '/' => some '/'
  | 'b' => some '\x08'
  | 'f' => some '\x0c'
  | 'n' => some '\n'
  | 'r' => some '\r'
  | 't' => some '\t'
  | _ => none

mutual

/-- Scan a JSON string body after the opening quote, as CPython's
`py_scanstring` with `strict=True` does: unescaped control characters are
rejected, escapes are decoded.  (Lone-surrogate `\\uXXXX` escapes, which a
Lean `Char` cannot hold, are out of the embedding; combining surrogate pairs
is not modelled.)  `fuel` bounds the recursion; one unit is spent per scanned
character, so any fuel above the input length is enough. -/
def parseStringBody : Nat → List Char → Option (List Char × List Char)
  | 0, _ => none
  | _ + 1, [] => none
  | f + 1, c :: rest =>
    if c = '"' then some ([], rest)
    else if c = '\\' then parseEscapeTail f rest
    else if c.toNat < 32 then none
    else
      match parseStringBody f rest with
      | none => none
      | some (s, rest2) => some (c :: s, rest2)
termination_by f _ => (f, 0)

/-- The characters after a backslash: a `\\uXXXX` escape or a two-character
escape, followed by the remainder of the string body. -/
def parseEscapeTail : Nat → List Char → Option (List Char × List Char)
  | _, [] => none
  | f, e :: rest2 =>
    if e = 'u' then
      match parseHex4 rest2 with
      | none => none
      | some (n, rest3) =>
        match parseStringBody f rest3 with
        | none => none
        | some (s, rest4) => some (Char.ofNat n :: s, rest4)
    else
      match unescapeChar e with
      | none => none
      | some d =>
        match parseStringBody f rest2 with
        | none => none
        | some (s, rest3) => some (d :: s, rest3)
termination_by f _ => (f, 1)

end

/-- Read a run of decimal digits left to right into an accumulator. -/
def readDigits : List Char → Nat → Nat × List Char
  | [], acc => (acc, [])
  | c :: rest, acc =>
    if isDigitChar c then readDigits rest (acc * 10 + digitVal c) else (acc, c :: rest)

/-- The integer part of a JSON number (`0|[1-9][0-9]*`): a leading zero is a
complete numeral by itself, as in CPython's `NUMBER_RE`. -/
def parseNumNat : List Char → Option (Nat × List Char)
  | '0' :: rest => some (0, rest)
  | c :: rest =>
    if isDigitChar c then some (readDigits rest (digitVal c)) else none
  | [] => none

/-- Python-dict insertion: updating an existing key keeps its position,
a new key is appended. -/
def insertPy : List (String × JValue) → String → JValue → List (String × JValue)
  | [], k, v => [(k, v)]
  | (k', v') :: rest, k, v =>
    if k' = k then (k', v) :: rest else (k', v') :: insertPy rest k v

/-- Build a Python dict from a list of key-value pairs in order (as
`dict(pairs)` and dict comprehensions do): a repeated key keeps the later
value. -/
def pyDictOfList (ps : List (String × JValue)) : List (String × JValue) :=
  ps.foldl (fun acc kv => insertPy acc kv.1 kv.2) []

/-- The tail of the `null` literal after its leading `n`. -/
def parseNullTail : List Char → Option (JValue × List Char)
  | 'u' :: 'l' :: 'l' :: rest => some (.null, rest)
  | _ => none

/-- The tail of the `true` literal after its leading `t`. -/
def parseTrueTail : List Char → Option (JValue × List Char)
  | 'r' :: 'u' :: 'e' :: rest => some (.bool true, rest)
  | _ => none

/-- The tail of the `false` literal after its leading `f`. -/
def parseFalseTail : List Char → Option (JValue × List Char)
  | 'a' :: 'l' :: 's' :: 'e' :: rest => some (.bool false, rest)
  | _ => none

mutual

/-- Scan one JSON value starting at a non-whitespace position, returning it
with the unconsumed remainder.  Mirrors CPython's `_default_decoder` scanner on
the integer-numeral fragment (numbers with a fraction or exponent, `NaN` and
`Infinity` are outside the embedding).  One unit of fuel is spent per nested
scanner call. -/
def parseValue : Nat → List Char → Option (JValue × List Char)
  | 0, _ => none
  | _ + 1, [] => none
  | f + 1, c :: rest =>
    if c = 'n' then parseNullTail rest
    else if c = 't' then parseTrueTail rest
    else if c = 'f' then parseFalseTail rest
    else if c = '"' then
      match parseStringBody (rest.length + 1) rest with
      | none => none
      | some (s, rest2) => some (.str (String.mk s), rest2)
    else if c = '-' then
      match parseNumNat rest with
      | none => none
      | some (n, rest2) => some (.int (-(n : Int)), rest2)
    else if c = '[' then
      match skipWs rest with
      | [] => none
      | c2 :: rest2 =>
        if c2 = ']' then some (.arr [], rest2)
        else
          match parseItems f (c2 :: rest2) with
          | none => none
          | some (xs, rest3) => some (.arr xs, rest3)
    else if c = '{' then
      match skipWs rest with
      | [] => none
      | c2 :: rest2 =>
        if c2 = '}' then some (.obj [], rest2)
        else
          match parseMembers f (c2 :: rest2) with
          | none => none
          | some (ms, rest3) => some (.obj (pyDictOfList ms), rest3)
    else
      match parseNumNat (c :: rest) with
      | none => none
      | some (n, rest2) => some (.int (n : Int), rest2)

/-- Scan the items of a non-empty array, positioned at the first item. -/
def parseItems : Nat → List Char → Option (List JValue × List Char)
  | 0, _ => none
  | f + 1, cs =>
    match parseValue f cs with
    | none => none
    | some (v, rest) =>
      match skipWs rest with
      | ',' :: rest2 =>
        (match parseItems f (skipWs rest2) with
         | none => none
         | some (xs, rest3) => some (v :: xs, rest3))
      | ']' :: rest2 => some ([v], rest2)
      | _ => none

/-- Scan the members of a non-empty object, positioned at the first key. -/
def parseMembers : Nat → List Char → Option (List (String × JValue) × List Char)
  | 0, _ => none
  | f + 1, cs =>
    match cs with
    | '"' :: rest =>
      (match parseStringBody (rest.length + 1) rest with
       | none => none
       | some (k, rest2) =>
         match skipWs rest2 with
         | ':' :: rest3 =>
           (match parseValue f (skipWs rest3) with
            | none => none
            | some (v, rest4) =>
              match skipWs rest4 with
              | ',' :: rest5 =>
                (match parseMembers f (skipWs rest5) with
                 | none => none
                 | some (ms, rest6) => some ((String.mk k, v) :: ms, rest6))
              | '}' :: rest5 => some ([(String.mk k, v)], rest5)
              | _ => none)
         | _ => none)
    | _ => none

end

/-- `json.loads(s)`: scan one value surrounded by optional whitespace and
demand the whole document is consumed.  The fuel `s.length + 1` is enough for
every accepting run, the scanner consuming at least one character per two
units spent. -/
def json_loads (s : String) : Option JValue :=
  match parseValue (s.length + 1) (skipWs s.data) with
  | none => none
  | some (v, rest) => if (skipWs rest).isEmpty then some v else none

/-- The head of the remainder is not a decimal digit (or there is no
remainder), so a numeral before it cannot greedily swallow it. -/
def noDigitHead : List Char → Bool
  | [] => true
  | c :: _ => !isDigitChar c

/-- The keys of an association list are pairwise distinct, as the keys of a
Python dict are. -/
def nodupKeys : List (String × JValue) → Bool
  | [] => true
  | (k, _) :: rest => !(rest.any fun p => p.1 == k) && nodupKeys rest

mutual

/-- A `JValue` is the image of a Python object when every nested object has
pairwise-distinct keys. -/
def wfJ : JValue → Bool
  | .null => true
  | .bool _ => true
  | .int _ => true
  | .str _ => true
  | .arr xs => wfList xs
  | .obj fs => nodupKeys fs && wfFields fs

def wfList : List JValue → Bool
  | [] => true
  | x :: xs => wfJ x && wfList xs

def wfFields : List (String × JValue) → Bool
  | [] => true
  | (_, v) :: fs => wfJ v && wfFields fs

end

mutual

/-- Fuel needed by `parseValue` to scan the printed form of a value. -/
def sizeJ : JValue → Nat
  | .null => 1
  | .bool _ => 1
  | .int _ => 1
  | .str _ => 1
  | .arr xs => 1 + sizeItems xs
  | .obj fs => 1 + sizeMembers fs

/-- Fuel needed by `parseItems` on this item list. -/
def sizeItems : List JValue → Nat
  | [] => 0
  | x :: xs => 1 + sizeJ x + sizeItems xs

/-- Fuel needed by `parseMembers` on this member list. -/
def sizeMembers : List (String × JValue) → Nat
  | [] => 0
  | (_, v) :: fs => 1 + sizeJ v + sizeMembers fs

end

-- ## The error taxonomy (errors.py) and the metadata store (metadata.py)

/-- The error kinds of `errors.py` that `metadata.py` / `index.py` raise, as a
tagged variant carrying the human-readable message. -/
inductive BridgeError where
  | metadataNotFound (msg : String)
  | metadataParse (msg : String)
  | indexGeneration (msg : String)

/-- `metadata_dir / f"{package_id}.json"` (metadata.py line 24 / 48). -/
def metadataPath (metadata_dir package_id : String) : String :=
  metadata_dir ++ "/" ++ package_id ++ ".json"

/-- `load_metadata` (metadata.py lines 10-33) over a filesystem modelled as a
map from paths to file contents: absent file raises `MetadataNotFoundError`,
undecodable content raises `MetadataParseError` (its message wraps the decode
diagnostic, whose exact text — CPython's — is elided here), otherwise the
decoded object is returned. -/
def load_metadata (fs : String → Option String) (metadata_dir package_id : String) :
    Except BridgeError JValue :=
  match fs (metadataPath metadata_dir package_id) with
  | none => .error (.metadataNotFound ("Metadata not found: " ++ package_id))
  | some content =>
    match json_loads content with
    | none => .error (.metadataParse ("Invalid metadata for " ++ package_id ++ ": invalid JSON"))
    | some v => .ok v

/-- `save_metadata` (metadata.py lines 36-50): returns the filesystem after the
write.  `mkdir(parents=True, exist_ok=True)` only affects directories, which
the file map does not track; the write overwrites any existing file. -/
def save_metadata (fs : String → Option String) (metadata_dir package_id : String)
    (metadata : JValue) : String → Option String :=
  fun path =>
    if path = metadataPath metadata_dir package_id then some (json_dumps metadata)
    else fs path

-- ## The index builder (index.py)

/-- The fields of a `subprocess.CompletedProcess` the code reads. -/
structure CompletedProcess where
  returncode : Int
  stdout : String
  stderr : String

/-- What the `subprocess.run(["fdroid", "update", "--pretty", "--nosign"], ...)`
call does: either the child process completes (any exit code; `check=False`),
or the launch itself fails.  In CPython a failed launch raises
`FileNotFoundError` / `PermissionError` — subclasses of `OSError`, not of
`subprocess.SubprocessError` — and with `check=False` and no `timeout` the
call can raise no `SubprocessError` at all (its only raisable subclasses are
`CalledProcessError`, needing `check=True`, and `TimeoutExpired`, needing a
`timeout`). -/
inductive RunOutcome where
  | completed (result : CompletedProcess)
  | launchFailure (msg : String)

/-- What a call to `generate_index` can raise: one of the repository's
`BridgeError`s, or an exception of another kind propagating uncaught — here
the `OSError` of a failed launch, which the function's
`except subprocess.SubprocessError` clause does not match. -/
inductive RaisedError where
  | bridge (e : BridgeError)
  | osError (msg : String)

/-- The environment `generate_index` interacts with: the repository directory
name and its existence, the behaviour of the external-tool invocation, and the
content of `<repo_dir>/repo/index-v2.json` afterwards (`none` when the file
does not exist). -/
structure IndexEnv where
  repoDir : String
  repoDirExists : Bool
  run : RunOutcome
  indexFileContent : Option String

/-- `generate_index` (index.py lines 12-63).  The optional pretty copy written
to `output_path` does not affect the returned value and is not modelled.  The
parse-failure message wraps CPython's decode diagnostic, elided here.  The
`except subprocess.SubprocessError` clause (index.py lines 60-61) is dead
code: with `check=False` and no `timeout` the `subprocess.run` call raises no
`SubprocessError`, and a failed launch raises an `OSError`
(`FileNotFoundError` / `PermissionError`) that no clause of the function
catches, so it propagates to the caller unwrapped — the unreachable
`IndexGenerationError("Failed to run fdroidserver: ...")` path has no image
in the model. -/
def generate_index (env : IndexEnv) : Except RaisedError JValue :=
  if !env.repoDirExists then
    .error (.bridge (.indexGeneration ("Repository directory not found: " ++ env.repoDir)))
  else
    match env.run with
    | .launchFailure e => .error (.osError e)
    | .completed result =>
      if result.returncode != 0 then
        .error (.bridge (.indexGeneration ("fdroid update failed: " ++ result.stderr)))
      else
        match env.indexFileContent with
        | none => .error (.bridge (.indexGeneration "Index file not generated"))
        | some content =>
          match json_loads content with
          | none =>
              .error (.bridge (.indexGeneration "Failed to parse generated index: invalid JSON"))
          | some index_data => .ok index_data

/-- `app["package_id"]` in the two dict comprehensions of
`create_minimal_index` (index.py lines 95-96).  The claims guarantee the key is
present and a string; the `KeyError` path for an absent key is not modelled
(the default `""` is never reached under the claims' hypotheses). -/
def pkgIdOf (app : List (String × JValue)) : String :=
  match lookupPy app "package_id" with
  | some (.str s) => s
  | _ => ""

/-- `app.get(key, default)`. -/
def getDefault (app : List (String × JValue)) (key : String) (d : JValue) : JValue :=
  (lookupPy app key).getD d

/-- The members of the dict `_format_app_entry` returns (index.py lines
100-116). -/
def format_app_entry_fields (app : List (String × JValue)) : List (String × JValue) :=
  [("name", .obj [("en-US", getDefault app "name" (.str ""))]),
   ("summary", .obj [("en-US", getDefault app "summary" (.str ""))]),
   ("description", .obj [("en-US", getDefault app "description" (.str ""))]),
   ("license", getDefault app "license" (.str "Unknown")),
   ("categories", getDefault app "categories" (.arr [])),
   ("suggestedVersionCode", getDefault app "version_code" (.int 0))]

/-- `_format_app_entry` (index.py lines 100-116). -/
def format_app_entry (app : List (String × JValue)) : JValue :=
  .obj (format_app_entry_fields app)

/-- `create_minimal_index` (index.py lines 66-97).  `now_ms` stands for
`int(time.time() * 1000)`, the current wall-clock time in milliseconds; the
dict comprehensions build their dicts by insertion order with a repeated key
keeping the later value. -/
def create_minimal_index (repo_name repo_description : String) (now_ms : Int)
    (apps : List (List (String × JValue))) : JValue :=
  .obj
    [("repo", .obj
        [("name", .obj [("en-US", .str repo_name)]),
         ("description", .obj [("en-US", .str repo_description)]),
         ("timestamp", .int now_ms),
         ("version", .int 21)]),
     ("apps", .obj (pyDictOfList
        (apps.map (fun app => (pkgIdOf app, format_app_entry app))))),
     ("packages", .obj (pyDictOfList
        (apps.map (fun app => (pkgIdOf app, .arr [])))))]

/-- The keys of an association list, in order. -/
def keysOf (ps : List (String × JValue)) : List String :=
  ps.map Prod.fst

/-- The `apps` dict comprehension of `create_minimal_index` (index.py line 95). -/
def appsDictOf (apps : List (List (String × JValue))) : List (String × JValue) :=
  pyDictOfList (apps.map (fun app => (pkgIdOf app, format_app_entry app)))

/-- The `packages` dict comprehension of `create_minimal_index`
(index.py line 96). -/
def packagesDictOf (apps : List (List (String × JValue))) : List (String × JValue) :=
  pyDictOfList (apps.map (fun app => (pkgIdOf app, JValue.arr [])))

/-- `needle` occurs inside `hay`. -/
def containsStr (hay needle : String) : Prop :=
  ∃ pre post, hay = pre ++ needle ++ post

/-- A concrete record whose five required fields are all present, whose string
fields are non-empty, and whose `version_code` is the integer `0`. -/
def zeroVersionRecord : List (String × JValue) :=
  [("name", JValue.str "Test App"), ("summary", JValue.str "A test"),
   ("description", JValue.str "Full description"), ("version_code", JValue.int 0),
   ("version_name", JValue.str "1.0")]

/-- The closing of a pretty-printed non-empty array: newline, indent, `]`. -/
def closeArr (pad : Nat) (rest : List Char) : List Char :=
  '\n' :: (List.replicate pad ' ' ++ (']' :: rest))

/-- The closing of a pretty-printed non-empty object: newline, indent, `}`. -/
def closeObj (pad : Nat) (rest : List Char) : List Char :=
  '\n' :: (List.replicate pad ' ' ++ ('}' :: rest))

-- ===== THEOREMS =====

theorem validate_metadata_eq (m : List (String × JValue)) :
    validate_metadata m =
      fieldCheck m "name" ++ fieldCheck m "summary" ++ fieldCheck m "description"
        ++ fieldCheck m "version_code" ++ fieldCheck m "version_name"
        ++ versionCodeCheck m := by
  simp [validate_metadata, requiredFields]

theorem count_fieldCheck_self (m : List (String × JValue)) (f t : String)
    (heq : ("Missing required field: " ++ f) = t)
    (hne : ("Empty required field: " ++ f) ≠ t) :
    (fieldCheck m f).count t = if (lookupPy m f).isNone then 1 else 0 := by
  subst heq
  unfold fieldCheck
  cases h : lookupPy m f with
  | none => simp [List.count_cons]
  | some v => by_cases ht : truthy v <;> simp [ht, List.count_cons, hne]

theorem count_fieldCheck_other (m : List (String × JValue)) (g t : String)
    (h1 : ("Missing required field: " ++ g) ≠ t)
    (h2 : ("Empty required field: " ++ g) ≠ t) :
    (fieldCheck m g).count t = 0 := by
  unfold fieldCheck
  cases h : lookupPy m g with
  | none => simp [List.count_cons, h1]
  | some v => by_cases ht : truthy v <;> simp [ht, List.count_cons, h1, h2]

theorem count_versionCodeCheck (m : List (String × JValue)) (t : String)
    (h1 : "version_code must be an integer" ≠ t)
    (h2 : "version_code must be non-negative" ≠ t) :
    (versionCodeCheck m).count t = 0 := by
  unfold versionCodeCheck
  cases h : lookupPy m "version_code" with
  | none => simp
  | some v =>
    by_cases hi : isPyInt v
    · by_cases hn : pyIntVal v < 0 <;> simp [hi, hn, List.count_cons, h1, h2]
    · simp [hi, List.count_cons, h1]

/-- C6: `validate_metadata` is total (a Lean function, so it never raises),
collects all violations rather than short-circuiting: every missing required
field contributes its message to the result, and each missing field contributes
exactly one "Missing required field" message. -/
theorem validate_metadata_collects_all (m : List (String × JValue)) :
    (∀ f ∈ requiredFields, lookupPy m f = none →
        ("Missing required field: " ++ f) ∈ validate_metadata m) ∧
    (∀ f ∈ requiredFields,
        (validate_metadata m).count ("Missing required field: " ++ f)
          = if (lookupPy m f).isNone then 1 else 0) := by
  constructor
  · intro f hf hnone
    rw [validate_metadata_eq]
    fin_cases hf <;> simp [fieldCheck, hnone]
  · intro f hf
    rw [validate_metadata_eq]
    simp only [List.count_append]
    fin_cases hf <;>
      simp +decide [count_fieldCheck_self, count_fieldCheck_other, count_versionCodeCheck]

/-- C6 witness: a record missing `summary` yields a message mentioning
`summary`, and a record missing both `summary` and `description` yields exactly
one missing-field message for each. -/
theorem validate_metadata_collects_all_witness :
    ("Missing required field: " ++ "summary")
        ∈ validate_metadata [("name", JValue.str "Test App")] ∧
    (validate_metadata [("name", JValue.str "Test App")]).count
        ("Missing required field: " ++ "summary") = 1 ∧
    (validate_metadata [("name", JValue.str "Test App")]).count
        ("Missing required field: " ++ "description") = 1 :=
  ⟨(validate_metadata_collects_all [("name", JValue.str "Test App")]).1 "summary"
      (by decide) rfl,
   by
    have h := (validate_metadata_collects_all [("name", JValue.str "Test App")]).2
    exact ⟨by simpa [lookupPy] using h "summary" (by decide),
           by simpa [lookupPy] using h "description" (by decide)⟩⟩

/-- C5: when `version_code` is present with a non-integer value,
`validate_metadata` reports the type-error message (independently of the
emptiness check), and when it is an integer below zero it reports the
range-error message mentioning "non-negative". -/
theorem validate_metadata_version_code_checks (m : List (String × JValue)) :
    (∀ v, lookupPy m "version_code" = some v → isPyInt v = false →
        "version_code must be an integer" ∈ validate_metadata m) ∧
    (∀ n : Int, lookupPy m "version_code" = some (JValue.int n) → n < 0 →
        "version_code must be non-negative" ∈ validate_metadata m) := by
  constructor
  · intro v hv hint
    rw [validate_metadata_eq]
    simp [versionCodeCheck, hv, hint]
  · intro n hv hneg
    rw [validate_metadata_eq]
    simp [versionCodeCheck, hv, isPyInt, pyIntVal, hneg, not_lt.mpr hneg.le]

/-- C5 witness: `version_code` given as the string "1" produces the type
complaint; given as `-1` produces the "non-negative" complaint. -/
theorem validate_metadata_version_code_checks_witness :
    "version_code must be an integer"
        ∈ validate_metadata [("version_code", JValue.str "1")] ∧
    "version_code must be non-negative"
        ∈ validate_metadata [("version_code", JValue.int (-1))] :=
  ⟨(validate_metadata_version_code_checks [("version_code", JValue.str "1")]).1
      (JValue.str "1") rfl rfl,
   (validate_metadata_version_code_checks [("version_code", JValue.int (-1))]).2
      (-1) rfl (by decide)⟩

/-- C3 counterexample: on a record with all five required fields present,
non-blank strings, and `version_code = 0` (a non-negative integer), the claim
asserts an empty error sequence; the code's `elif not metadata[field]` check
treats the integer `0` as falsy and reports it as an empty required field. -/
theorem validate_metadata_zero_counterexample :
    validate_metadata zeroVersionRecord = ["Empty required field: version_code"] ∧
    validate_metadata zeroVersionRecord ≠ [] := by
  constructor
  · rfl
  · intro h
    simp [show validate_metadata zeroVersionRecord
        = ["Empty required field: version_code"] from rfl] at h

/-- C3 amended: for every record in which all five required fields are present
with Python-truthy values (for `version_code` this excludes `0`, which the
emptiness check rejects) and `version_code` is a non-negative integer,
`validate_metadata` returns the empty error sequence. -/
theorem validate_metadata_ok_of_truthy (m : List (String × JValue))
    (h : ∀ f ∈ requiredFields, ∃ v, lookupPy m f = some v ∧ truthy v = true)
    (hvc : ∃ n : Int, lookupPy m "version_code" = some (JValue.int n) ∧ 0 ≤ n) :
    validate_metadata m = [] := by
  obtain ⟨n, hn, hn0⟩ := hvc
  obtain ⟨v1, hv1, ht1⟩ := h "name" (by decide)
  obtain ⟨v2, hv2, ht2⟩ := h "summary" (by decide)
  obtain ⟨v3, hv3, ht3⟩ := h "description" (by decide)
  obtain ⟨v4, hv4, ht4⟩ := h "version_code" (by decide)
  obtain ⟨v5, hv5, ht5⟩ := h "version_name" (by decide)
  rw [hn] at hv4
  cases hv4
  rw [validate_metadata_eq]
  simp [fieldCheck, versionCodeCheck, hv1, ht1, hv2, ht2, hv3, ht3, hn, ht4,
    hv5, ht5, isPyInt, pyIntVal, not_lt.mpr hn0]

/-- C3 amended witness: a concrete fully-populated record with
`version_code = 1` validates with no errors. -/
theorem validate_metadata_ok_of_truthy_witness :
    validate_metadata
      [("name", JValue.str "Test App"), ("summary", JValue.str "A test"),
       ("description", JValue.str "Full description"),
       ("version_code", JValue.int 1), ("version_name", JValue.str "1.0")] = [] :=
  validate_metadata_ok_of_truthy _
    (by
      intro f hf
      fin_cases hf <;> exact ⟨_, rfl, rfl⟩)
    ⟨1, rfl, by decide⟩

/-- C7: on a non-existent `repo_dir`, `generate_index` fails with
`IndexGenerationError` naming the missing directory.  The result is the same
for every `run` outcome and every filesystem state, i.e. it is decided before
any process launch is attempted. -/
theorem generate_index_missing_dir (env : IndexEnv) (h : env.repoDirExists = false) :
    generate_index env
      = .error (.bridge (.indexGeneration
          ("Repository directory not found: " ++ env.repoDir))) ∧
    containsStr ("Repository directory not found: " ++ env.repoDir) env.repoDir := by
  refine ⟨?_, "Repository directory not found: ", "", (String.append_empty _).symm⟩
  simp [generate_index, h]

/-- C7 witness: a concrete environment with a missing directory, in which the
subprocess would fail to launch — the launch is never reached. -/
theorem generate_index_missing_dir_witness :
    generate_index ⟨"/srv/repo", false, RunOutcome.launchFailure "OSError", none⟩
      = .error (.bridge (.indexGeneration
          ("Repository directory not found: " ++ "/srv/repo"))) :=
  (generate_index_missing_dir
    ⟨"/srv/repo", false, RunOutcome.launchFailure "OSError", none⟩ rfl).1

/-- C2: the program evaluated at the claim's failure mode (c) — the repository
directory exists and the launch of the external process itself fails (the
`fdroid` executable is absent, so `subprocess.run` raises `FileNotFoundError`,
an `OSError`).  The `OSError` escapes `generate_index` uncaught instead of
being wrapped into `IndexGenerationError`: the
`except subprocess.SubprocessError` clause written to wrap it can never match
a launch failure, so both "raises IndexGenerationError ... (c) wrapping the
launch failure" and "no other error kind escapes" fail on this input, against
the function docstring's promise that failures raise `IndexGenerationError`.
Modes (a), (b) and (d) behave as claimed
(`generate_index_index_generation_modes`). -/
theorem generate_index_launch_oserror :
    generate_index ⟨"/srv/repo", true,
        RunOutcome.launchFailure "No such file or directory: fdroid", none⟩
      = .error (.osError "No such file or directory: fdroid") ∧
    generate_index ⟨"/srv/repo", true,
        RunOutcome.launchFailure "No such file or directory: fdroid", none⟩
      ≠ .error (.bridge (.indexGeneration ("Failed to run fdroidserver: "
          ++ "No such file or directory: fdroid"))) :=
  ⟨rfl, by simp [generate_index]⟩

/-- The failure modes that do reach an `IndexGenerationError` behave as
claimed: non-zero exit includes the captured standard-error text, a missing
output file gives the generic message, undecodable output gives the parse
message, and when the launch succeeds the result is success or an
`IndexGenerationError` — only the launch-failure path escapes otherwise. -/
theorem generate_index_index_generation_modes (env : IndexEnv)
    (h : env.repoDirExists = true) :
    (∀ r, env.run = .completed r →
      ((∃ v, generate_index env = .ok v) ∨
        (∃ msg, generate_index env = .error (.bridge (.indexGeneration msg))))) ∧
    (∀ r, env.run = .completed r → r.returncode ≠ 0 →
        generate_index env
          = .error (.bridge (.indexGeneration ("fdroid update failed: " ++ r.stderr))) ∧
        containsStr ("fdroid update failed: " ++ r.stderr) r.stderr) ∧
    (∀ r, env.run = .completed r → r.returncode = 0 → env.indexFileContent = none →
        generate_index env
          = .error (.bridge (.indexGeneration "Index file not generated"))) ∧
    (∀ e, env.run = .launchFailure e → generate_index env = .error (.osError e)) ∧
    (∀ r content, env.run = .completed r → r.returncode = 0 →
        env.indexFileContent = some content → json_loads content = none →
        generate_index env
          = .error (.bridge (.indexGeneration
              "Failed to parse generated index: invalid JSON"))) := by
  refine ⟨?_, ?_, ?_, ?_, ?_⟩
  · intro r hr
    by_cases hrc : r.returncode = 0
    · cases hf : env.indexFileContent with
      | none =>
        exact .inr ⟨"Index file not generated",
          by simp [generate_index, h, hr, hrc, hf]⟩
      | some content =>
        cases hj : json_loads content with
        | none =>
          exact .inr ⟨"Failed to parse generated index: invalid JSON",
            by simp [generate_index, h, hr, hrc, hf, hj]⟩
        | some v => exact .inl ⟨v, by simp [generate_index, h, hr, hrc, hf, hj]⟩
    · exact .inr ⟨"fdroid update failed: " ++ r.stderr,
        by simp [generate_index, h, hr, hrc]⟩
  · intro r hr hrc
    refine ⟨?_, "fdroid update failed: ", "", ?_⟩
    · simp [generate_index, h, hr, hrc]
    · rw [String.append_empty]
  · intro r hr hrc hf
    simp [generate_index, h, hr, hrc, hf]
  · intro e hr
    simp [generate_index, h, hr]
  · intro r content hr hrc hf hj
    simp [generate_index, h, hr, hrc, hf, hj]

/-- Witness for `generate_index_index_generation_modes`: the modes at concrete
environments, each producing its result. -/
theorem generate_index_index_generation_modes_witness :
    generate_index ⟨"/srv/repo", true, RunOutcome.completed ⟨1, "", "boom"⟩, none⟩
      = .error (.bridge (.indexGeneration ("fdroid update failed: " ++ "boom"))) ∧
    generate_index ⟨"/srv/repo", true, RunOutcome.completed ⟨0, "", ""⟩, none⟩
      = .error (.bridge (.indexGeneration "Index file not generated")) ∧
    generate_index
        ⟨"/srv/repo", true, RunOutcome.completed ⟨0, "", ""⟩, some "not valid json"⟩
      = .error (.bridge (.indexGeneration "Failed to parse generated index: invalid JSON")) :=
  ⟨((generate_index_index_generation_modes
      ⟨"/srv/repo", true, RunOutcome.completed ⟨1, "", "boom"⟩, none⟩ rfl).2.1
      ⟨1, "", "boom"⟩ rfl (by decide)).1,
   (generate_index_index_generation_modes
      ⟨"/srv/repo", true, RunOutcome.completed ⟨0, "", ""⟩, none⟩ rfl).2.2.1
      ⟨0, "", ""⟩ rfl rfl rfl,
   (generate_index_index_generation_modes
      ⟨"/srv/repo", true, RunOutcome.completed ⟨0, "", ""⟩, some "not valid json"⟩ rfl).2.2.2.2
      ⟨0, "", ""⟩ "not valid json" rfl rfl rfl rfl⟩

/-- C4: `load_metadata` fails with `MetadataNotFoundError` exactly when the
file is absent and with `MetadataParseError` exactly when the file exists but
its content is not valid JSON; both messages contain the package id, and on
success the decoded object is returned unmodified. -/
theorem load_metadata_cases (fs : String → Option String) (dir pid : String) :
    (fs (metadataPath dir pid) = none →
        load_metadata fs dir pid
          = .error (.metadataNotFound ("Metadata not found: " ++ pid)) ∧
        containsStr ("Metadata not found: " ++ pid) pid) ∧
    (∀ content, fs (metadataPath dir pid) = some content → json_loads content = none →
        load_metadata fs dir pid
          = .error (.metadataParse ("Invalid metadata for " ++ pid ++ ": invalid JSON")) ∧
        containsStr ("Invalid metadata for " ++ pid ++ ": invalid JSON") pid) ∧
    (∀ content v, fs (metadataPath dir pid) = some content → json_loads content = some v →
        load_metadata fs dir pid = .ok v) ∧
    (∀ msg, load_metadata fs dir pid = .error (.metadataNotFound msg) →
        fs (metadataPath dir pid) = none) ∧
    (∀ msg, load_metadata fs dir pid = .error (.metadataParse msg) →
        ∃ content, fs (metadataPath dir pid) = some content ∧ json_loads content = none) := by
  refine ⟨?_, ?_, ?_, ?_, ?_⟩
  · intro hfs
    refine ⟨by simp [load_metadata, hfs], "Metadata not found: ", "", ?_⟩
    rw [String.append_empty]
  · intro content hfs hj
    exact ⟨by simp [load_metadata, hfs, hj], "Invalid metadata for ", ": invalid JSON", rfl⟩
  · intro content v hfs hj
    simp [load_metadata, hfs, hj]
  · intro msg heq
    cases hfs : fs (metadataPath dir pid) with
    | none => rfl
    | some content =>
      simp only [load_metadata, hfs] at heq
      cases hj : json_loads content <;> simp [hj] at heq
  · intro msg heq
    cases hfs : fs (metadataPath dir pid) with
    | none =>
      simp only [load_metadata, hfs] at heq
      simp at heq
    | some content =>
      refine ⟨content, rfl, ?_⟩
      simp only [load_metadata, hfs] at heq
      cases hj : json_loads content with
      | none => rfl
      | some v => simp [hj] at heq

/-- C4 witness: on a one-file filesystem, loading a missing package id gives
not-found, loading undecodable content gives parse-error, and loading a valid
document returns it. -/
theorem load_metadata_cases_witness :
    load_metadata (fun _ => none) "meta" "dk.digst.mitid"
      = .error (.metadataNotFound ("Metadata not found: " ++ "dk.digst.mitid")) ∧
    load_metadata (fun _ => some "not valid json \x7b") "meta" "dk.digst.mitid"
      = .error (.metadataParse
          ("Invalid metadata for " ++ "dk.digst.mitid" ++ ": invalid JSON")) ∧
    load_metadata (fun _ => some "\x7b\x7d") "meta" "dk.digst.mitid"
      = .ok (JValue.obj []) :=
  ⟨((load_metadata_cases (fun _ => none) "meta" "dk.digst.mitid").1 rfl).1,
   ((load_metadata_cases (fun _ => some "not valid json \x7b") "meta" "dk.digst.mitid").2.1
      "not valid json \x7b" rfl rfl).1,
   (load_metadata_cases (fun _ => some "\x7b\x7d") "meta" "dk.digst.mitid").2.2.1
      "\x7b\x7d" (JValue.obj []) rfl rfl⟩

theorem lookupPy_insertPy_self (acc : List (String × JValue)) (k : String) (v : JValue) :
    lookupPy (insertPy acc k v) k = some v := by
  induction acc with
  | nil => simp [insertPy, lookupPy]
  | cons p rest ih =>
    obtain ⟨k2, v2⟩ := p
    by_cases h : k2 = k <;> simp [insertPy, lookupPy, h, ih]

theorem lookupPy_insertPy_other (acc : List (String × JValue)) (k' k : String) (v : JValue)
    (h : k' ≠ k) : lookupPy (insertPy acc k' v) k = lookupPy acc k := by
  induction acc with
  | nil => simp [insertPy, lookupPy, h]
  | cons p rest ih =>
    obtain ⟨k2, v2⟩ := p
    by_cases h2 : k2 = k'
    · subst h2
      simp [insertPy, lookupPy, h]
    · by_cases h3 : k2 = k <;>
        simp [insertPy, lookupPy, h2, h3, Ne.symm h, ih]

theorem lookupPy_foldl_insertPy (ps : List (String × JValue)) (acc : List (String × JValue))
    (k : String) :
    lookupPy (ps.foldl (fun a kv => insertPy a kv.1 kv.2) acc) k
      = (Option.map Prod.snd (ps.reverse.find? (fun kv => kv.1 == k))).or
          (lookupPy acc k) := by
  induction ps generalizing acc with
  | nil => simp
  | cons kv t ih =>
    obtain ⟨k1, v1⟩ := kv
    by_cases hk : k1 = k
    · subst hk
      cases hf : t.reverse.find? (fun kv => kv.1 == k1) with
      | none =>
        simp [List.foldl_cons, ih, List.find?_append, hf, lookupPy_insertPy_self]
      | some kv2 =>
        simp [List.foldl_cons, ih, List.find?_append, hf]
    · cases hf : t.reverse.find? (fun kv => kv.1 == k) with
      | none =>
        simp [List.foldl_cons, ih, List.find?_append, hf, hk,
          lookupPy_insertPy_other acc k1 k v1 hk]
      | some kv2 =>
        simp [List.foldl_cons, ih, List.find?_append, hf, hk]

theorem keysOf_cons (p : String × JValue) (l : List (String × JValue)) :
    keysOf (p :: l) = p.1 :: keysOf l := rfl

theorem keysOf_insertPy (acc : List (String × JValue)) (k : String) (v : JValue) :
    keysOf (insertPy acc k v)
      = if k ∈ keysOf acc then keysOf acc else keysOf acc ++ [k] := by
  induction acc with
  | nil => simp [insertPy, keysOf]
  | cons p rest ih =>
    obtain ⟨k2, v2⟩ := p
    by_cases h : k2 = k
    · subst h
      rw [if_pos (by rw [keysOf_cons]; exact List.mem_cons_self _ _)]
      simp [insertPy, keysOf]
    · have hins : insertPy ((k2, v2) :: rest) k v = (k2, v2) :: insertPy rest k v := by
        simp [insertPy, h]
      have hcond : (k ∈ k2 :: keysOf rest) ↔ k ∈ keysOf rest := by
        rw [List.mem_cons]
        exact or_iff_right (Ne.symm h)
      rw [hins, keysOf_cons, keysOf_cons, ih]
      by_cases hm : k ∈ keysOf rest
      · rw [if_pos hm, if_pos (hcond.mpr hm)]
      · rw [if_neg hm, if_neg (fun hx => hm (hcond.mp hx))]
        rfl

theorem keysOf_foldl_insertPy_congr (ps : List (String × JValue)) :
    ∀ (qs acc₁ acc₂ : List (String × JValue)),
      ps.map Prod.fst = qs.map Prod.fst → keysOf acc₁ = keysOf acc₂ →
      keysOf (ps.foldl (fun a kv => insertPy a kv.1 kv.2) acc₁)
        = keysOf (qs.foldl (fun a kv => insertPy a kv.1 kv.2) acc₂) := by
  induction ps with
  | nil =>
    intro qs acc₁ acc₂ hmap hacc
    cases qs with
    | nil => simpa using hacc
    | cons q qt => exact absurd hmap (by simp)
  | cons p pt ih =>
    intro qs acc₁ acc₂ hmap hacc
    cases qs with
    | nil => exact absurd hmap (by simp)
    | cons q qt =>
      simp only [List.map_cons, List.cons.injEq] at hmap
      obtain ⟨hpq, htail⟩ := hmap
      refine ih qt (insertPy acc₁ p.1 p.2) (insertPy acc₂ q.1 q.2) htail ?_
      rw [keysOf_insertPy, keysOf_insertPy, hacc, hpq]

theorem mem_insertPy (acc : List (String × JValue)) (k : String) (v : JValue)
    (kv : String × JValue) : kv ∈ insertPy acc k v → kv ∈ acc ∨ kv = (k, v) := by
  induction acc with
  | nil =>
    intro hmem
    simp only [insertPy, List.mem_singleton] at hmem
    exact .inr hmem
  | cons p rest ih =>
    intro hmem
    obtain ⟨k2, v2⟩ := p
    by_cases h2 : k2 = k
    · subst h2
      rw [show insertPy ((k2, v2) :: rest) k2 v = (k2, v) :: rest from by
        simp [insertPy]] at hmem
      rcases List.mem_cons.mp hmem with hma | hmb
      · exact .inr hma
      · exact .inl (List.mem_cons_of_mem _ hmb)
    · rw [show insertPy ((k2, v2) :: rest) k v = (k2, v2) :: insertPy rest k v from by
        simp [insertPy, h2]] at hmem
      rcases List.mem_cons.mp hmem with hma | hmb
      · exact .inl (by simp [hma])
      · rcases ih hmb with hm1 | hm2
        · exact .inl (List.mem_cons_of_mem _ hm1)
        · exact .inr hm2

theorem snd_mem_foldl_insertPy (ps : List (String × JValue)) (x : JValue) :
    ∀ (acc : List (String × JValue)), (∀ kv ∈ ps, kv.2 = x) → (∀ kv ∈ acc, kv.2 = x) →
      ∀ kv ∈ ps.foldl (fun a kv => insertPy a kv.1 kv.2) acc, kv.2 = x := by
  induction ps with
  | nil => intro acc _ hacc; simpa using hacc
  | cons p pt ih =>
    intro acc hps hacc
    refine ih (insertPy acc p.1 p.2) (fun kv hkv => hps kv (List.mem_cons_of_mem _ hkv)) ?_
    intro kv hkv
    rcases mem_insertPy acc p.1 p.2 kv hkv with h | h
    · exact hacc kv h
    · rw [h]; exact hps p (List.mem_cons_self _ _)

/-- C8: `create_minimal_index` builds `repo.name` / `repo.description` as
single-entry `en-US` maps of the given strings, `repo.version` is the fixed
constant 21, `repo.timestamp` is the wall-clock milliseconds value (positive,
the clock being past the epoch), and with zero apps both the `apps` and
`packages` mappings are empty. -/
theorem create_minimal_index_repo_and_empty (repo_name repo_description : String)
    (now_ms : Int) (apps : List (List (String × JValue))) (hnow : 0 < now_ms) :
    create_minimal_index repo_name repo_description now_ms apps
      = JValue.obj
          [("repo", JValue.obj
              [("name", JValue.obj [("en-US", JValue.str repo_name)]),
               ("description", JValue.obj [("en-US", JValue.str repo_description)]),
               ("timestamp", JValue.int now_ms),
               ("version", JValue.int 21)]),
           ("apps", JValue.obj (appsDictOf apps)),
           ("packages", JValue.obj (packagesDictOf apps))] ∧
    (0 : Int) < now_ms ∧
    appsDictOf [] = [] ∧ packagesDictOf [] = [] :=
  ⟨rfl, hnow, rfl, rfl⟩

/-- C8 witness: a concrete empty-apps index. -/
theorem create_minimal_index_repo_and_empty_witness :
    create_minimal_index "Empty Repo" "No apps yet" 1759999999999 []
      = JValue.obj
          [("repo", JValue.obj
              [("name", JValue.obj [("en-US", JValue.str "Empty Repo")]),
               ("description", JValue.obj [("en-US", JValue.str "No apps yet")]),
               ("timestamp", JValue.int 1759999999999),
               ("version", JValue.int 21)]),
           ("apps", JValue.obj []),
           ("packages", JValue.obj [])] :=
  (create_minimal_index_repo_and_empty "Empty Repo" "No apps yet" 1759999999999 []
    (by decide)).1

/-- C9: with two apps of distinct package ids, the index `apps` mapping
contains both ids, each bound to that app's formatted entry whose `name.en-US`
is the input `name`; and in every formatted entry `license` defaults to
`"Unknown"`, `categories` to `[]`, and `suggestedVersionCode` is the input's
`version_code` defaulting to 0. -/
theorem create_minimal_index_two_apps_and_defaults
    (a1 a2 : List (String × JValue)) (s1 s2 : String) (n1 n2 : JValue)
    (h1 : lookupPy a1 "package_id" = some (JValue.str s1))
    (h2 : lookupPy a2 "package_id" = some (JValue.str s2))
    (hne : s1 ≠ s2)
    (hn1 : lookupPy a1 "name" = some n1)
    (hn2 : lookupPy a2 "name" = some n2) :
    (lookupPy (appsDictOf [a1, a2]) s1 = some (format_app_entry a1) ∧
     lookupPy (appsDictOf [a1, a2]) s2 = some (format_app_entry a2)) ∧
    (lookupPy (format_app_entry_fields a1) "name"
        = some (JValue.obj [("en-US", n1)]) ∧
     lookupPy (format_app_entry_fields a2) "name"
        = some (JValue.obj [("en-US", n2)])) ∧
    (∀ app, lookupPy app "license" = none →
        lookupPy (format_app_entry_fields app) "license"
          = some (JValue.str "Unknown")) ∧
    (∀ app, lookupPy app "categories" = none →
        lookupPy (format_app_entry_fields app) "categories"
          = some (JValue.arr [])) ∧
    (∀ app, lookupPy (format_app_entry_fields app) "suggestedVersionCode"
        = some (getDefault app "version_code" (JValue.int 0))) := by
  have hp1 : pkgIdOf a1 = s1 := by simp [pkgIdOf, h1]
  have hp2 : pkgIdOf a2 = s2 := by simp [pkgIdOf, h2]
  refine ⟨⟨?_, ?_⟩, ⟨?_, ?_⟩, ?_, ?_, ?_⟩
  · simp [appsDictOf, pyDictOfList, insertPy, lookupPy, hp1, hp2, hne, Ne.symm hne]
  · simp [appsDictOf, pyDictOfList, insertPy, lookupPy, hp1, hp2, hne, Ne.symm hne]
  · simp [format_app_entry_fields, lookupPy, getDefault, hn1]
  · simp [format_app_entry_fields, lookupPy, getDefault, hn2]
  · intro app hl
    simp [format_app_entry_fields, lookupPy, getDefault, hl]
  · intro app hc
    simp [format_app_entry_fields, lookupPy, getDefault, hc]
  · intro app
    simp [format_app_entry_fields, lookupPy]

/-- C9 witness: two concrete apps with distinct package ids and sparse
metadata. -/
theorem create_minimal_index_two_apps_and_defaults_witness :
    lookupPy (appsDictOf
        [[("package_id", JValue.str "dk.test.app1"), ("name", JValue.str "App One")],
         [("package_id", JValue.str "dk.test.app2"), ("name", JValue.str "App Two")]])
      "dk.test.app1"
      = some (format_app_entry
          [("package_id", JValue.str "dk.test.app1"), ("name", JValue.str "App One")]) ∧
    lookupPy (format_app_entry_fields
        [("package_id", JValue.str "dk.test.app1"), ("name", JValue.str "App One")])
      "license" = some (JValue.str "Unknown") :=
  ⟨((create_minimal_index_two_apps_and_defaults
      [("package_id", JValue.str "dk.test.app1"), ("name", JValue.str "App One")]
      [("package_id", JValue.str "dk.test.app2"), ("name", JValue.str "App Two")]
      "dk.test.app1" "dk.test.app2" (JValue.str "App One") (JValue.str "App Two")
      rfl rfl (by decide) rfl rfl).1).1,
   (create_minimal_index_two_apps_and_defaults
      [("package_id", JValue.str "dk.test.app1"), ("name", JValue.str "App One")]
      [("package_id", JValue.str "dk.test.app2"), ("name", JValue.str "App Two")]
      "dk.test.app1" "dk.test.app2" (JValue.str "App One") (JValue.str "App Two")
      rfl rfl (by decide) rfl rfl).2.2.1
      [("package_id", JValue.str "dk.test.app1"), ("name", JValue.str "App One")] rfl⟩

/-- C10: for any input apps list (duplicate package ids allowed) the `apps`
and `packages` dicts have identical key sequences, every `packages` value is
the empty sequence, and the entry stored under a key is the formatted entry of
the last input app bearing it. -/
theorem create_minimal_index_dict_invariants
    (apps : List (List (String × JValue)))
    (h : ∀ a ∈ apps, ∃ s, lookupPy a "package_id" = some (JValue.str s)) :
    keysOf (appsDictOf apps) = keysOf (packagesDictOf apps) ∧
    (∀ kv ∈ packagesDictOf apps, kv.2 = JValue.arr []) ∧
    (∀ k, lookupPy (appsDictOf apps) k
        = Option.map format_app_entry
            (apps.reverse.find? (fun a => pkgIdOf a == k))) ∧
    (∀ repo_name repo_description now_ms,
        create_minimal_index repo_name repo_description now_ms apps
          = JValue.obj
              [("repo", JValue.obj
                  [("name", JValue.obj [("en-US", JValue.str repo_name)]),
                   ("description", JValue.obj [("en-US", JValue.str repo_description)]),
                   ("timestamp", JValue.int now_ms),
                   ("version", JValue.int 21)]),
               ("apps", JValue.obj (appsDictOf apps)),
               ("packages", JValue.obj (packagesDictOf apps))]) := by
  refine ⟨?_, ?_, ?_, fun _ _ _ => rfl⟩
  · exact keysOf_foldl_insertPy_congr _ _ _ _ (by simp) rfl
  · intro kv hkv
    exact snd_mem_foldl_insertPy _ _ _ (by simp) (by simp) kv hkv
  · intro k
    rw [appsDictOf, pyDictOfList, lookupPy_foldl_insertPy]
    have hrev : (apps.map fun app => (pkgIdOf app, format_app_entry app)).reverse
        = apps.reverse.map fun app => (pkgIdOf app, format_app_entry app) := by
      simp
    rw [hrev, List.find?_map, Option.map_map]
    simp only [lookupPy, Option.or_none]
    rfl

/-- C10 witness: two apps sharing a package id — the kept entry is the later
one's, and the key sets of `apps` and `packages` coincide. -/
theorem create_minimal_index_dict_invariants_witness :
    lookupPy (appsDictOf
        [[("package_id", JValue.str "dk.a"), ("name", JValue.str "One")],
         [("package_id", JValue.str "dk.a"), ("name", JValue.str "Two")]])
      "dk.a"
      = some (format_app_entry
          [("package_id", JValue.str "dk.a"), ("name", JValue.str "Two")]) ∧
    keysOf (appsDictOf
        [[("package_id", JValue.str "dk.a"), ("name", JValue.str "One")],
         [("package_id", JValue.str "dk.a"), ("name", JValue.str "Two")]])
      = keysOf (packagesDictOf
        [[("package_id", JValue.str "dk.a"), ("name", JValue.str "One")],
         [("package_id", JValue.str "dk.a"), ("name", JValue.str "Two")]]) := by
  have h := create_minimal_index_dict_invariants
    [[("package_id", JValue.str "dk.a"), ("name", JValue.str "One")],
     [("package_id", JValue.str "dk.a"), ("name", JValue.str "Two")]]
    (by
      intro a ha
      rcases List.mem_cons.mp ha with h1 | h1
      · exact ⟨"dk.a", by rw [h1]; rfl⟩
      · rcases List.mem_cons.mp h1 with h2 | h2
        · exact ⟨"dk.a", by rw [h2]; rfl⟩
        · exact absurd h2 (List.not_mem_nil a))
  refine ⟨?_, h.1⟩
  have h3 := h.2.2.1 "dk.a"
  rw [h3]
  rfl

-- ## Round-trip lemmas: whitespace

theorem skipWs_cons_ws (c : Char) (rest : List Char) (h : isWsChar c = true) :
    skipWs (c :: rest) = skipWs rest := by
  simp [skipWs, List.dropWhile, h]

theorem skipWs_cons_not_ws (c : Char) (rest : List Char) (h : isWsChar c = false) :
    skipWs (c :: rest) = c :: rest := by
  simp [skipWs, List.dropWhile, h]

theorem skipWs_replicate_space (n : Nat) (rest : List Char) :
    skipWs (List.replicate n ' ' ++ rest) = skipWs rest := by
  induction n with
  | zero => simp
  | succ m ih => simpa [List.replicate_succ, skipWs_cons_ws] using ih

theorem skipWs_indent (level : Nat) (rest : List Char) :
    skipWs (indentChars level ++ rest) = skipWs rest :=
  skipWs_replicate_space (2 * level) rest

theorem skipWs_newline_indent (level : Nat) (rest : List Char) :
    skipWs ('\n' :: (indentChars level ++ rest)) = skipWs rest := by
  rw [skipWs_cons_ws _ _ (by decide), skipWs_indent]

-- ## Round-trip lemmas: numerals

theorem digitChar_spec (d : Nat) (h : d < 10) :
    isDigitChar (digitChar d) = true ∧ digitVal (digitChar d) = d := by
  interval_cases d <;> exact ⟨by decide, by decide⟩

theorem digitChar_ne_zero (d : Nat) (h1 : d < 10) (h2 : d ≠ 0) : digitChar d ≠ '0' := by
  interval_cases d <;> simp_all <;> decide

theorem readDigits_noDigit (rest : List Char) (acc : Nat) (h : noDigitHead rest = true) :
    readDigits rest acc = (acc, rest) := by
  cases rest with
  | nil => rfl
  | cons c t =>
    simp only [noDigitHead, Bool.not_eq_true'] at h
    simp [readDigits, h]

theorem readDigits_natDigits (n : Nat) :
    ∀ (acc : Nat) (rest : List Char),
      readDigits (natDigits n ++ rest) acc
        = readDigits rest (acc * 10 ^ (natDigits n).length + n) := by
  induction n using Nat.strong_induction_on with
  | _ n ih =>
    intro acc rest
    by_cases h0 : n = 0
    · subst h0
      rw [show natDigits 0 = [] from by rw [natDigits]; simp]
      simp
    · have hstep : natDigits n = natDigits (n / 10) ++ [digitChar (n % 10)] := by
        rw [natDigits]; simp [h0]
      have hd := digitChar_spec (n % 10) (Nat.mod_lt n (by norm_num))
      rw [hstep, List.append_assoc,
        ih (n / 10) (Nat.div_lt_self (Nat.pos_of_ne_zero h0) (by norm_num)),
        List.singleton_append, readDigits, if_pos hd.1, hd.2]
      congr 1
      rw [List.length_append, List.length_singleton, pow_succ]
      have hmod : 10 * (n / 10) + n % 10 = n := Nat.div_add_mod n 10
      calc (acc * 10 ^ (natDigits (n / 10)).length + n / 10) * 10 + n % 10
          = acc * (10 ^ (natDigits (n / 10)).length * 10) + (10 * (n / 10) + n % 10) := by
            ring
        _ = acc * (10 ^ (natDigits (n / 10)).length * 10) + n := by rw [hmod]

theorem natDigits_head (n : Nat) (h0 : n ≠ 0) :
    ∃ c cs, natDigits n = c :: cs ∧ isDigitChar c = true ∧ c ≠ '0' := by
  induction n using Nat.strong_induction_on with
  | _ n ih =>
    have hstep : natDigits n = natDigits (n / 10) ++ [digitChar (n % 10)] := by
      rw [natDigits]; simp [h0]
    by_cases hq : n / 10 = 0
    · have hlt : n < 10 := by omega
      have hne : n % 10 ≠ 0 := by omega
      rw [hstep, hq, show natDigits 0 = [] from by rw [natDigits]; simp,
        List.nil_append]
      exact ⟨digitChar (n % 10), [], rfl, (digitChar_spec _ (Nat.mod_lt n (by omega))).1,
        digitChar_ne_zero _ (Nat.mod_lt n (by omega)) hne⟩
    · obtain ⟨c, cs, hcs, hdig, hz⟩ :=
        ih (n / 10) (Nat.div_lt_self (Nat.pos_of_ne_zero h0) (by norm_num)) hq
      exact ⟨c, cs ++ [digitChar (n % 10)], by rw [hstep, hcs]; rfl, hdig, hz⟩

theorem parseNumNat_natChars (n : Nat) (rest : List Char) (h : noDigitHead rest = true) :
    parseNumNat (natChars n ++ rest) = some (n, rest) := by
  by_cases h0 : n = 0
  · subst h0
    rw [show natChars 0 = ['0'] from by rw [natChars]; simp]
    rfl
  · rw [show natChars n = natDigits n from by rw [natChars]; simp [h0]]
    obtain ⟨c, cs, hcs, hdig, hz⟩ := natDigits_head n h0
    have hread : readDigits ((c :: cs) ++ rest) 0 = (n, rest) := by
      rw [← hcs, readDigits_natDigits n 0 rest, readDigits_noDigit rest _ h]
      simp
    rw [hcs, List.cons_append, parseNumNat]
    · rw [if_pos hdig]
      have hone : readDigits (c :: (cs ++ rest)) 0 = readDigits (cs ++ rest) (digitVal c) := by
        rw [readDigits, if_pos hdig]
        norm_num
      rw [← hone, show c :: (cs ++ rest) = (c :: cs) ++ rest from rfl, hread]
    · exact fun hc => hz hc

theorem natChars_head (m : Nat) :
    ∃ c cs, natChars m = c :: cs ∧ isDigitChar c = true := by
  by_cases h : m = 0
  · exact ⟨'0', [], by rw [h]; rfl, by decide⟩
  · obtain ⟨c, cs, hcs, hdig, _⟩ := natDigits_head m h
    exact ⟨c, cs, by rw [natChars]; simp [h, hcs], hdig⟩

theorem digit_not_special (c : Char) (h : isDigitChar c = true) :
    c ≠ 'n' ∧ c ≠ 't' ∧ c ≠ 'f' ∧ c ≠ '"' ∧ c ≠ '-' ∧ c ≠ '[' ∧ c ≠ '{' := by
  refine ⟨?_, ?_, ?_, ?_, ?_, ?_, ?_⟩ <;> (intro hc; subst hc; simp [isDigitChar] at h)

theorem parseValue_intChars (n : Int) (f : Nat) (rest : List Char)
    (hf : 1 ≤ f) (h : noDigitHead rest = true) :
    parseValue f (intChars n ++ rest) = some (.int n, rest) := by
  obtain ⟨g, rfl⟩ : ∃ g, f = g + 1 := ⟨f - 1, by omega⟩
  by_cases hneg : n < 0
  · rw [show intChars n = '-' :: natChars n.natAbs from by rw [intChars]; simp [hneg]]
    rw [List.cons_append, parseValue]
    rw [if_neg (by decide : ¬ ('-' : Char) = 'n'), if_neg (by decide : ¬ ('-' : Char) = 't'),
      if_neg (by decide : ¬ ('-' : Char) = 'f'), if_neg (by decide : ¬ ('-' : Char) = '"'),
      if_pos (rfl : ('-' : Char) = '-')]
    rw [parseNumNat_natChars n.natAbs rest h]
    have hval : -(n.natAbs : Int) = n := by omega
    show some (JValue.int (-(n.natAbs : Int)), rest) = some (JValue.int n, rest)
    rw [hval]
  · rw [show intChars n = natChars n.natAbs from by rw [intChars]; simp [hneg]]
    obtain ⟨c, cs, hcs, hdig⟩ := natChars_head n.natAbs
    obtain ⟨h1, h2, h3, h4, h5, h6, h7⟩ := digit_not_special c hdig
    rw [hcs, List.cons_append, parseValue]
    simp only [if_neg h1, if_neg h2, if_neg h3, if_neg h4, if_neg h5, if_neg h6, if_neg h7]
    rw [show c :: (cs ++ rest) = (c :: cs) ++ rest from rfl, ← hcs,
      parseNumNat_natChars n.natAbs rest h]
    have : (n.natAbs : Int) = n := by omega
    simp [this]

-- ## Round-trip lemmas: strings

theorem hexVal_hexChar (x : Nat) (h : x < 16) : hexVal (hexChar x) = some x := by
  interval_cases x <;> decide

theorem escapeChar_length (c : Char) : 1 ≤ (escapeChar c).length := by
  unfold escapeChar
  repeat' split
  all_goals simp

theorem escBody_length (s : List Char) :
    s.length ≤ ((s.map escapeChar).flatten).length := by
  induction s with
  | nil => simp
  | cons c cs ih =>
    simp only [List.map_cons, List.flatten_cons, List.length_append, List.length_cons]
    have := escapeChar_length c
    omega

theorem parse_escBody (s : List Char) :
    ∀ (f : Nat) (rest : List Char), s.length < f →
      parseStringBody f ((s.map escapeChar).flatten ++ '"' :: rest) = some (s, rest) := by
  induction s with
  | nil =>
    intro f rest hf
    obtain ⟨g, rfl⟩ : ∃ g, f = g + 1 := ⟨f - 1, by omega⟩
    simp only [List.map_nil, List.flatten_nil, List.nil_append]
    rw [parseStringBody, if_pos rfl]
  | cons c cs ih =>
    intro f rest hf
    obtain ⟨g, rfl⟩ : ∃ g, f = g + 1 := ⟨f - 1, by omega⟩
    have hg : cs.length < g := by
      simp only [List.length_cons] at hf
      omega
    have ihg := ih g rest hg
    simp only [List.map_cons, List.flatten_cons, List.append_assoc]
    by_cases h1 : c = '"'
    · subst h1
      rw [show escapeChar '"' = ['\\', '"'] from rfl, List.cons_append, List.cons_append,
        List.nil_append, parseStringBody]
      simp [parseEscapeTail, unescapeChar, ihg]
    · by_cases h2 : c = '\\'
      · subst h2
        rw [show escapeChar '\\' = ['\\', '\\'] from rfl, List.cons_append, List.cons_append,
          List.nil_append, parseStringBody]
        simp [parseEscapeTail, unescapeChar, ihg]
      · by_cases h3 : c = '\n'
        · subst h3
          rw [show escapeChar '\n' = ['\\', 'n'] from rfl, List.cons_append, List.cons_append,
            List.nil_append, parseStringBody]
          simp [parseEscapeTail, unescapeChar, ihg]
        · by_cases h4 : c = '\t'
          · subst h4
            rw [show escapeChar '\t' = ['\\', 't'] from rfl, List.cons_append,
              List.cons_append, List.nil_append, parseStringBody]
            simp [parseEscapeTail, unescapeChar, ihg]
          · by_cases h5 : c = '\r'
            · subst h5
              rw [show escapeChar '\r' = ['\\', 'r'] from rfl, List.cons_append,
                List.cons_append, List.nil_append, parseStringBody]
              simp [parseEscapeTail, unescapeChar, ihg]
            · by_cases h6 : c = '\x08'
              · subst h6
                rw [show escapeChar '\x08' = ['\\', 'b'] from rfl, List.cons_append,
                  List.cons_append, List.nil_append, parseStringBody]
                simp [parseEscapeTail, unescapeChar, ihg]
              · by_cases h7 : c = '\x0c'
                · subst h7
                  rw [show escapeChar '\x0c' = ['\\', 'f'] from rfl, List.cons_append,
                    List.cons_append, List.nil_append, parseStringBody]
                  simp [parseEscapeTail, unescapeChar, ihg]
                · by_cases hc : c.toNat < 32
                  · have hesc : escapeChar c
                        = ['\\', 'u', '0', '0', hexChar (c.toNat / 16),
                           hexChar (c.toNat % 16)] := by
                      rw [escapeChar, if_neg h1, if_neg h2, if_neg h3, if_neg h4,
                        if_neg h5, if_neg h6, if_neg h7, if_pos hc]
                    rw [hesc]
                    simp only [List.cons_append, List.nil_append]
                    rw [parseStringBody,
                      if_neg (by decide : ¬ ('\\' : Char) = '"'),
                      if_pos (rfl : ('\\' : Char) = '\\'),
                      parseEscapeTail, if_pos (rfl : ('u' : Char) = 'u'), parseHex4]
                    have hdiv : c.toNat / 16 < 16 := by omega
                    have hmod : c.toNat % 16 < 16 := by omega
                    rw [show hexVal '0' = some 0 from rfl,
                      hexVal_hexChar _ hdiv, hexVal_hexChar _ hmod]
                    have harith : ((0 * 16 + 0) * 16 + c.toNat / 16) * 16 + c.toNat % 16
                        = c.toNat := by omega
                    simp only [harith, Char.ofNat_toNat, ihg]
                  · have hesc : escapeChar c = [c] := by
                      rw [escapeChar, if_neg h1, if_neg h2, if_neg h3, if_neg h4,
                        if_neg h5, if_neg h6, if_neg h7, if_neg hc]
                    rw [hesc, List.cons_append, List.nil_append, parseStringBody,
                      if_neg h1, if_neg h2, if_neg hc, ihg]

theorem digit_not_delim (c : Char) (h : isDigitChar c = true) :
    isWsChar c = false ∧ c ≠ ']' ∧ c ≠ '}' := by
  refine ⟨?_, ?_, ?_⟩
  · cases hw : isWsChar c
    · rfl
    · exfalso
      simp only [isWsChar, Bool.or_eq_true, decide_eq_true_eq] at hw
      rcases hw with ((h1 | h1) | h1) | h1 <;> (subst h1; simp [isDigitChar] at h)
  · intro hc; subst hc; simp [isDigitChar] at h
  · intro hc; subst hc; simp [isDigitChar] at h

theorem dumpVal_head (level : Nat) (v : JValue) :
    ∃ c cs, dumpVal level v = c :: cs ∧ isWsChar c = false ∧ c ≠ ']' ∧ c ≠ '}' := by
  cases v with
  | null => exact ⟨'n', _, rfl, by decide, by decide, by decide⟩
  | bool b => cases b
              · exact ⟨'f', _, rfl, by decide, by decide, by decide⟩
              · exact ⟨'t', _, rfl, by decide, by decide, by decide⟩
  | int n =>
    by_cases hneg : n < 0
    · refine ⟨'-', natChars n.natAbs, ?_, by decide, by decide, by decide⟩
      rw [dumpVal, intChars, if_pos hneg]
    · obtain ⟨c, cs, hcs, hdig⟩ := natChars_head n.natAbs
      obtain ⟨hw, hb, hbr⟩ := digit_not_delim c hdig
      refine ⟨c, cs, ?_, hw, hb, hbr⟩
      rw [dumpVal, intChars, if_neg hneg, hcs]
  | str s => exact ⟨'"', _, rfl, by decide, by decide, by decide⟩
  | arr xs =>
    cases xs
    · exact ⟨'[', _, rfl, by decide, by decide, by decide⟩
    · exact ⟨'[', _, rfl, by decide, by decide, by decide⟩
  | obj fs =>
    cases fs
    · exact ⟨'{', _, rfl, by decide, by decide, by decide⟩
    · exact ⟨'{', _, rfl, by decide, by decide, by decide⟩

-- ## Round-trip lemmas: rebuilding an object with distinct keys

theorem insertPy_fresh (acc : List (String × JValue)) (k : String) (v : JValue)
    (h : ∀ p ∈ acc, p.1 ≠ k) : insertPy acc k v = acc ++ [(k, v)] := by
  induction acc with
  | nil => rfl
  | cons p rest ih =>
    obtain ⟨k0, v0⟩ := p
    have hk0 : k0 ≠ k := h (k0, v0) (List.mem_cons_self _ _)
    rw [show insertPy ((k0, v0) :: rest) k v = (k0, v0) :: insertPy rest k v from by
      simp [insertPy, hk0]]
    rw [ih (fun p hp => h p (List.mem_cons_of_mem _ hp))]
    rfl

theorem nodupKeys_head_fresh (acc : List (String × JValue)) (k : String) (v : JValue)
    (t : List (String × JValue)) :
    nodupKeys (acc ++ (k, v) :: t) = true → ∀ p ∈ acc, p.1 ≠ k := by
  induction acc with
  | nil => intro _ p hp; exact absurd hp (List.not_mem_nil p)
  | cons q rest ih =>
    obtain ⟨k0, v0⟩ := q
    intro hnd p hp
    rw [List.cons_append, nodupKeys, Bool.and_eq_true] at hnd
    obtain ⟨hany, hrest⟩ := hnd
    rcases List.mem_cons.mp hp with hq | hq
    · subst hq
      intro hk
      subst hk
      simp only [Bool.not_eq_true', List.any_eq_false] at hany
      have h2 := hany (k0, v) (by simp)
      simp at h2
    · exact ih hrest p hq

theorem pyDict_fold_nodup (fs : List (String × JValue)) :
    ∀ (acc : List (String × JValue)), nodupKeys (acc ++ fs) = true →
      fs.foldl (fun a kv => insertPy a kv.1 kv.2) acc = acc ++ fs := by
  induction fs with
  | nil => intro acc _; simp
  | cons kv t ih =>
    obtain ⟨k, v⟩ := kv
    intro acc hnd
    rw [List.foldl_cons]
    have hfresh := nodupKeys_head_fresh acc k v t hnd
    rw [insertPy_fresh acc k v hfresh]
    have hnd2 : nodupKeys ((acc ++ [(k, v)]) ++ t) = true := by
      rw [List.append_assoc, List.singleton_append]
      exact hnd
    rw [ih (acc ++ [(k, v)]) hnd2, List.append_assoc, List.singleton_append]

theorem pyDictOfList_nodup (fs : List (String × JValue)) (h : nodupKeys fs = true) :
    pyDictOfList fs = fs := by
  have := pyDict_fold_nodup fs [] (by simpa using h)
  simpa [pyDictOfList] using this

-- ## Round-trip lemmas: the printed form is long enough to pay for the fuel

mutual

theorem sizeJ_le_dump : ∀ (v : JValue) (level : Nat),
    sizeJ v ≤ (dumpVal level v).length + 1
  | .null, _ => by simp [sizeJ, dumpVal]
  | .bool b, _ => by cases b <;> simp [sizeJ, dumpVal]
  | .int n, _ => by simp only [sizeJ]; omega
  | .str s, _ => by simp only [sizeJ]; omega
  | .arr [], _ => by simp [sizeJ, sizeItems, dumpVal]
  | .arr (x :: xs), level => by
    have h1 := sizeJ_le_dump x (level + 1)
    have h2 := sizeItems_le_dump xs (level + 1)
    simp only [sizeJ, sizeItems, dumpVal, List.length_cons, List.length_append]
    omega
  | .obj [], _ => by simp [sizeJ, sizeMembers, dumpVal]
  | .obj ((k, v) :: fs), level => by
    have h1 := sizeJ_le_dump v (level + 1)
    have h2 := sizeMembers_le_dump fs (level + 1)
    simp only [sizeJ, sizeMembers, dumpVal, dumpField, quoteString, List.length_cons,
      List.length_append]
    omega

theorem sizeItems_le_dump : ∀ (xs : List JValue) (level : Nat),
    sizeItems xs ≤ (dumpItems level xs).length
  | [], _ => by simp [sizeItems, dumpItems]
  | x :: xs, level => by
    have h1 := sizeJ_le_dump x level
    have h2 := sizeItems_le_dump xs level
    simp only [sizeItems, dumpItems, List.length_cons, List.length_append]
    omega

theorem sizeMembers_le_dump : ∀ (fs : List (String × JValue)) (level : Nat),
    sizeMembers fs ≤ (dumpFields level fs).length
  | [], _ => by simp [sizeMembers, dumpFields]
  | (k, v) :: fs, level => by
    have h1 := sizeJ_le_dump v level
    have h2 := sizeMembers_le_dump fs level
    simp only [sizeMembers, dumpFields, dumpField, quoteString, List.length_cons,
      List.length_append]
    omega

end

-- ## Round-trip lemmas: one scanner step at each leading character

theorem parseValue_quote_step (g : Nat) (tail : List Char) :
    parseValue (g + 1) ('"' :: tail)
      = (match parseStringBody (tail.length + 1) tail with
         | none => none
         | some (s, rest2) => some (.str (String.mk s), rest2)) := by
  rw [parseValue,
    if_neg (by decide : ¬ ('"' : Char) = 'n'),
    if_neg (by decide : ¬ ('"' : Char) = 't'),
    if_neg (by decide : ¬ ('"' : Char) = 'f'),
    if_pos (rfl : ('"' : Char) = '"')]

theorem parseValue_bracket_step (g : Nat) (tail : List Char) :
    parseValue (g + 1) ('[' :: tail)
      = (match skipWs tail with
         | [] => none
         | c2 :: rest2 =>
           if c2 = ']' then some (.arr [], rest2)
           else
             match parseItems g (c2 :: rest2) with
             | none => none
             | some (xs, rest3) => some (.arr xs, rest3)) := by
  rw [parseValue,
    if_neg (by decide : ¬ ('[' : Char) = 'n'),
    if_neg (by decide : ¬ ('[' : Char) = 't'),
    if_neg (by decide : ¬ ('[' : Char) = 'f'),
    if_neg (by decide : ¬ ('[' : Char) = '"'),
    if_neg (by decide : ¬ ('[' : Char) = '-'),
    if_pos (rfl : ('[' : Char) = '[')]

theorem parseValue_brace_step (g : Nat) (tail : List Char) :
    parseValue (g + 1) ('{' :: tail)
      = (match skipWs tail with
         | [] => none
         | c2 :: rest2 =>
           if c2 = '}' then some (.obj [], rest2)
           else
             match parseMembers g (c2 :: rest2) with
             | none => none
             | some (ms, rest3) => some (.obj (pyDictOfList ms), rest3)) := by
  rw [parseValue,
    if_neg (by decide : ¬ ('{' : Char) = 'n'),
    if_neg (by decide : ¬ ('{' : Char) = 't'),
    if_neg (by decide : ¬ ('{' : Char) = 'f'),
    if_neg (by decide : ¬ ('{' : Char) = '"'),
    if_neg (by decide : ¬ ('{' : Char) = '-'),
    if_neg (by decide : ¬ ('{' : Char) = '['),
    if_pos (rfl : ('{' : Char) = '{')]


theorem parseValue_bracket_nonempty (g : Nat) (tail : List Char) (c2 : Char)
    (rest2 : List Char) (hskip : skipWs tail = c2 :: rest2) (h : c2 ≠ ']') :
    parseValue (g + 1) ('[' :: tail)
      = (match parseItems g (c2 :: rest2) with
         | none => none
         | some (xs, rest3) => some (.arr xs, rest3)) := by
  rw [parseValue_bracket_step, hskip]
  simp [h]

theorem parseValue_brace_nonempty (g : Nat) (tail : List Char) (c2 : Char)
    (rest2 : List Char) (hskip : skipWs tail = c2 :: rest2) (h : c2 ≠ '}') :
    parseValue (g + 1) ('{' :: tail)
      = (match parseMembers g (c2 :: rest2) with
         | none => none
         | some (ms, rest3) => some (.obj (pyDictOfList ms), rest3)) := by
  rw [parseValue_brace_step, hskip]
  simp [h]

theorem skipWs_colon (A : List Char) : skipWs (':' :: A) = ':' :: A :=
  skipWs_cons_not_ws _ _ (by decide)

theorem skipWs_quoteString (k : String) (A : List Char) :
    skipWs (quoteString k ++ A) = quoteString k ++ A := by
  have h : quoteString k ++ A
      = '"' :: ((k.data.map escapeChar).flatten ++ ('"' :: A)) := by
    rw [quoteString]
    simp
  rw [h, skipWs_cons_not_ws _ _ (by decide)]

theorem skipWs_closeArr (pad : Nat) (rest : List Char) :
    skipWs (closeArr pad rest) = ']' :: rest := by
  rw [closeArr, skipWs_cons_ws _ _ (by decide), skipWs_replicate_space,
    skipWs_cons_not_ws _ _ (by decide)]

theorem skipWs_closeObj (pad : Nat) (rest : List Char) :
    skipWs (closeObj pad rest) = '}' :: rest := by
  rw [closeObj, skipWs_cons_ws _ _ (by decide), skipWs_replicate_space,
    skipWs_cons_not_ws _ _ (by decide)]

theorem noDigitHead_items (level pad : Nat) (xs : List JValue) (rest : List Char) :
    noDigitHead (dumpItems level xs ++ closeArr pad rest) = true := by
  cases xs <;> rfl

theorem noDigitHead_fields (level pad : Nat) (fs : List (String × JValue))
    (rest : List Char) :
    noDigitHead (dumpFields level fs ++ closeObj pad rest) = true := by
  cases fs <;> rfl

mutual

theorem parse_dump_val : ∀ (v : JValue) (f level : Nat) (rest : List Char),
    wfJ v = true → sizeJ v ≤ f → noDigitHead rest = true →
    parseValue f (dumpVal level v ++ rest) = some (v, rest)
  | .null, f, level, rest => by
    intro _ hsz _
    obtain ⟨g, rfl⟩ : ∃ g, f = g + 1 := ⟨f - 1, by simp [sizeJ] at hsz; omega⟩
    rw [show dumpVal level .null ++ rest = 'n' :: ('u' :: 'l' :: 'l' :: rest) from rfl,
      parseValue, if_pos rfl]
    rfl
  | .bool true, f, level, rest => by
    intro _ hsz _
    obtain ⟨g, rfl⟩ : ∃ g, f = g + 1 := ⟨f - 1, by simp [sizeJ] at hsz; omega⟩
    rw [show dumpVal level (.bool true) ++ rest = 't' :: ('r' :: 'u' :: 'e' :: rest) from rfl,
      parseValue, if_neg (by decide : ¬ ('t' : Char) = 'n'), if_pos rfl]
    rfl
  | .bool false, f, level, rest => by
    intro _ hsz _
    obtain ⟨g, rfl⟩ : ∃ g, f = g + 1 := ⟨f - 1, by simp [sizeJ] at hsz; omega⟩
    rw [show dumpVal level (.bool false) ++ rest
        = 'f' :: ('a' :: 'l' :: 's' :: 'e' :: rest) from rfl,
      parseValue, if_neg (by decide : ¬ ('f' : Char) = 'n'),
      if_neg (by decide : ¬ ('f' : Char) = 't'), if_pos rfl]
    rfl
  | .int n, f, level, rest => by
    intro _ hsz hnd
    exact parseValue_intChars n f rest (by simp [sizeJ] at hsz; omega) hnd
  | .str s, f, level, rest => by
    intro _ hsz _
    obtain ⟨g, rfl⟩ : ∃ g, f = g + 1 := ⟨f - 1, by simp [sizeJ] at hsz; omega⟩
    rw [show dumpVal level (.str s) ++ rest
        = '"' :: ((s.data.map escapeChar).flatten ++ '"' :: rest) from by
      simp [dumpVal, quoteString]]
    rw [parseValue_quote_step]
    have hlen : s.data.length
        < ((s.data.map escapeChar).flatten ++ '"' :: rest).length + 1 := by
      have := escBody_length s.data
      simp only [List.length_append, List.length_cons]
      omega
    rw [parse_escBody s.data _ rest hlen]
  | .arr [], f, level, rest => by
    intro _ hsz _
    obtain ⟨g, rfl⟩ : ∃ g, f = g + 1 := ⟨f - 1, by simp [sizeJ, sizeItems] at hsz; omega⟩
    rw [show dumpVal level (.arr []) ++ rest = '[' :: (']' :: rest) from rfl,
      parseValue_bracket_step, skipWs_cons_not_ws _ _ (by decide)]
    simp
  | .arr (x :: xs), f, level, rest => by
    intro hwf hsz hnd
    have hw : wfJ x = true ∧ wfList xs = true := by
      have heq : wfJ (.arr (x :: xs)) = (wfJ x && wfList xs) := rfl
      rw [heq, Bool.and_eq_true] at hwf
      exact hwf
    obtain ⟨g, rfl⟩ : ∃ g, f = g + 1 :=
      ⟨f - 1, by simp [sizeJ, sizeItems] at hsz; omega⟩
    have hsz2 : sizeItems (x :: xs) ≤ g := by simp [sizeJ] at hsz; omega
    obtain ⟨c, cs, hcs, hcw, hcb, _⟩ := dumpVal_head (level + 1) x
    have hskip : skipWs ('\n' :: (indentChars (level + 1) ++ (dumpVal (level + 1) x
        ++ (dumpItems (level + 1) xs ++ closeArr (2 * level) rest))))
        = c :: (cs ++ (dumpItems (level + 1) xs ++ closeArr (2 * level) rest)) := by
      rw [skipWs_cons_ws _ _ (by decide), skipWs_indent, hcs, List.cons_append,
        skipWs_cons_not_ws _ _ hcw]
    rw [show dumpVal level (.arr (x :: xs)) ++ rest
        = '[' :: ('\n' :: (indentChars (level + 1) ++ (dumpVal (level + 1) x
            ++ (dumpItems (level + 1) xs ++ closeArr (2 * level) rest)))) from by
      simp [dumpVal, indentChars, closeArr]]
    rw [parseValue_bracket_nonempty g _ c _ hskip hcb]
    rw [show c :: (cs ++ (dumpItems (level + 1) xs ++ closeArr (2 * level) rest))
        = dumpVal (level + 1) x ++ (dumpItems (level + 1) xs
            ++ closeArr (2 * level) rest) from by
      rw [hcs]; rfl]
    rw [parse_dump_items x xs g (level + 1) (2 * level) rest hw.1 hw.2 hsz2 hnd]
  | .obj [], f, level, rest => by
    intro _ hsz _
    obtain ⟨g, rfl⟩ : ∃ g, f = g + 1 :=
      ⟨f - 1, by simp [sizeJ, sizeMembers] at hsz; omega⟩
    rw [show dumpVal level (.obj []) ++ rest = '{' :: ('}' :: rest) from rfl,
      parseValue_brace_step, skipWs_cons_not_ws _ _ (by decide)]
    simp [pyDictOfList]
  | .obj ((k, v) :: fs), f, level, rest => by
    intro hwf hsz hnd
    have hw : nodupKeys ((k, v) :: fs) = true ∧ wfJ v = true ∧ wfFields fs = true := by
      have heq : wfJ (.obj ((k, v) :: fs))
          = (nodupKeys ((k, v) :: fs) && (wfJ v && wfFields fs)) := rfl
      rw [heq, Bool.and_eq_true, Bool.and_eq_true] at hwf
      exact ⟨hwf.1, hwf.2.1, hwf.2.2⟩
    obtain ⟨g, rfl⟩ : ∃ g, f = g + 1 :=
      ⟨f - 1, by simp [sizeJ, sizeMembers] at hsz; omega⟩
    have hsz2 : sizeMembers ((k, v) :: fs) ≤ g := by simp [sizeJ] at hsz; omega
    have hskip : skipWs ('\n' :: (indentChars (level + 1) ++ (dumpField (level + 1) (k, v)
        ++ (dumpFields (level + 1) fs ++ closeObj (2 * level) rest))))
        = '"' :: ((k.data.map escapeChar).flatten ++ ('"' :: (':' :: (' '
            :: (dumpVal (level + 1) v ++ (dumpFields (level + 1) fs
              ++ closeObj (2 * level) rest)))))) := by
      rw [skipWs_cons_ws _ _ (by decide), skipWs_indent]
      rw [show dumpField (level + 1) (k, v) ++ (dumpFields (level + 1) fs
            ++ closeObj (2 * level) rest)
          = '"' :: ((k.data.map escapeChar).flatten ++ ('"' :: (':' :: (' '
              :: (dumpVal (level + 1) v ++ (dumpFields (level + 1) fs
                ++ closeObj (2 * level) rest)))))) from by
        rw [show dumpField (level + 1) (k, v)
            = quoteString k ++ ':' :: ' ' :: dumpVal (level + 1) v from rfl, quoteString]
        simp]
      rw [skipWs_cons_not_ws _ _ (by decide)]
    rw [show dumpVal level (.obj ((k, v) :: fs)) ++ rest
        = '{' :: ('\n' :: (indentChars (level + 1) ++ (dumpField (level + 1) (k, v)
            ++ (dumpFields (level + 1) fs ++ closeObj (2 * level) rest)))) from by
      simp [dumpVal, indentChars, closeObj]]
    rw [parseValue_brace_nonempty g _ '"' _ hskip (by decide)]
    rw [show '"' :: ((k.data.map escapeChar).flatten ++ ('"' :: (':' :: (' '
          :: (dumpVal (level + 1) v ++ (dumpFields (level + 1) fs
            ++ closeObj (2 * level) rest))))))
        = dumpField (level + 1) (k, v) ++ (dumpFields (level + 1) fs
            ++ closeObj (2 * level) rest) from by
      rw [show dumpField (level + 1) (k, v)
          = quoteString k ++ ':' :: ' ' :: dumpVal (level + 1) v from rfl, quoteString]
      simp]
    rw [parse_dump_members k v fs g (level + 1) (2 * level) rest hw.2.1 hw.2.2 hsz2 hnd]
    show some (JValue.obj (pyDictOfList ((k, v) :: fs)), rest)
        = some (JValue.obj ((k, v) :: fs), rest)
    rw [pyDictOfList_nodup ((k, v) :: fs) hw.1]
termination_by v _ _ _ => sizeOf v

theorem parse_dump_items : ∀ (x : JValue) (xs : List JValue) (f level pad : Nat)
    (rest : List Char),
    wfJ x = true → wfList xs = true → sizeItems (x :: xs) ≤ f → noDigitHead rest = true →
    parseItems f (dumpVal level x ++ (dumpItems level xs ++ closeArr pad rest))
      = some (x :: xs, rest)
  | x, xs, f, level, pad, rest => by
    intro hwx hwxs hsz hnd
    obtain ⟨g, rfl⟩ : ∃ g, f = g + 1 := ⟨f - 1, by simp [sizeItems] at hsz; omega⟩
    have hszx : sizeJ x ≤ g := by simp [sizeItems] at hsz; omega
    rw [parseItems,
      parse_dump_val x g level _ hwx hszx (noDigitHead_items level pad xs rest)]
    cases xs with
    | nil =>
      have hskip : skipWs (dumpItems level ([] : List JValue) ++ closeArr pad rest)
          = ']' :: rest := by
        rw [show dumpItems level ([] : List JValue) = [] from rfl, List.nil_append,
          skipWs_closeArr]
      simp +decide [hskip]
    | cons y ys =>
      have hwy : wfJ y = true ∧ wfList ys = true := by
        have heq : wfList (y :: ys) = (wfJ y && wfList ys) := rfl
        rw [heq, Bool.and_eq_true] at hwxs
        exact hwxs
      have hszy : sizeItems (y :: ys) ≤ g := by
        simp [sizeItems] at hsz ⊢
        omega
      obtain ⟨c, cs, hcs, hcw, _, _⟩ := dumpVal_head level y
      have hskip1 : skipWs (dumpItems level (y :: ys) ++ closeArr pad rest)
          = ',' :: ('\n' :: (indentChars level ++ (dumpVal level y
              ++ (dumpItems level ys ++ closeArr pad rest)))) := by
        rw [show dumpItems level (y :: ys) ++ closeArr pad rest
            = ',' :: ('\n' :: (indentChars level ++ (dumpVal level y
              ++ (dumpItems level ys ++ closeArr pad rest)))) from by
          rw [show dumpItems level (y :: ys)
              = ',' :: '\n' :: indentChars level ++ dumpVal level y
                ++ dumpItems level ys from rfl]
          simp]
        rw [skipWs_cons_not_ws _ _ (by decide)]
      have hskip2 : skipWs ('\n' :: (indentChars level ++ (dumpVal level y
          ++ (dumpItems level ys ++ closeArr pad rest))))
          = dumpVal level y ++ (dumpItems level ys ++ closeArr pad rest) := by
        rw [skipWs_newline_indent, hcs, List.cons_append,
          skipWs_cons_not_ws _ _ hcw, ← List.cons_append, ← hcs]
      simp +decide [hskip1, hskip2,
        parse_dump_items y ys g level pad rest hwy.1 hwy.2 hszy hnd]
termination_by x xs _ _ _ _ => 1 + sizeOf x + sizeOf xs

theorem parse_dump_members : ∀ (k : String) (v : JValue) (fs : List (String × JValue))
    (f level pad : Nat) (rest : List Char),
    wfJ v = true → wfFields fs = true → sizeMembers ((k, v) :: fs) ≤ f →
    noDigitHead rest = true →
    parseMembers f (dumpField level (k, v) ++ (dumpFields level fs ++ closeObj pad rest))
      = some ((k, v) :: fs, rest)
  | k, v, fs, f, level, pad, rest => by
    intro hwv hwfs hsz hnd
    obtain ⟨g, rfl⟩ : ∃ g, f = g + 1 := ⟨f - 1, by simp [sizeMembers] at hsz; omega⟩
    have hszv : sizeJ v ≤ g := by simp [sizeMembers] at hsz; omega
    rw [show dumpField level (k, v) ++ (dumpFields level fs ++ closeObj pad rest)
        = '"' :: ((k.data.map escapeChar).flatten ++ ('"' :: (':' :: (' '
            :: (dumpVal level v ++ (dumpFields level fs ++ closeObj pad rest)))))) from by
      rw [show dumpField level (k, v)
          = quoteString k ++ ':' :: ' ' :: dumpVal level v from rfl, quoteString]
      simp]
    rw [parseMembers]
    have hlen : k.data.length
        < ((k.data.map escapeChar).flatten ++ ('"' :: (':' :: (' '
            :: (dumpVal level v ++ (dumpFields level fs
              ++ closeObj pad rest)))))).length + 1 := by
      have := escBody_length k.data
      simp only [List.length_append, List.length_cons]
      omega
    have hstr := parse_escBody k.data _
      (':' :: (' ' :: (dumpVal level v ++ (dumpFields level fs ++ closeObj pad rest))))
      hlen
    rw [hstr]
    obtain ⟨c, cs, hcs, hcw, _, _⟩ := dumpVal_head level v
    have hskipB : skipWs (' ' :: (dumpVal level v ++ (dumpFields level fs
        ++ closeObj pad rest)))
        = dumpVal level v ++ (dumpFields level fs ++ closeObj pad rest) := by
      rw [skipWs_cons_ws _ _ (by decide), hcs, List.cons_append,
        skipWs_cons_not_ws _ _ hcw, ← List.cons_append, ← hcs]
    have hval := parse_dump_val v g level _ hwv hszv (noDigitHead_fields level pad fs rest)
    cases fs with
    | nil =>
      have hskipC : skipWs (dumpFields level ([] : List (String × JValue))
          ++ closeObj pad rest) = '}' :: rest := by
        rw [show dumpFields level ([] : List (String × JValue)) = [] from rfl,
          List.nil_append, skipWs_closeObj]
      simp +decide [skipWs_colon, hskipB, hval, hskipC]
    | cons kv2 fs2 =>
      obtain ⟨k2, v2⟩ := kv2
      have hw2 : wfJ v2 = true ∧ wfFields fs2 = true := by
        have heq : wfFields ((k2, v2) :: fs2) = (wfJ v2 && wfFields fs2) := rfl
        rw [heq, Bool.and_eq_true] at hwfs
        exact hwfs
      have hsz2 : sizeMembers ((k2, v2) :: fs2) ≤ g := by
        simp [sizeMembers] at hsz ⊢
        omega
      have hskipD : skipWs (dumpFields level ((k2, v2) :: fs2) ++ closeObj pad rest)
          = ',' :: ('\n' :: (indentChars level ++ (dumpField level (k2, v2)
              ++ (dumpFields level fs2 ++ closeObj pad rest)))) := by
        rw [show dumpFields level ((k2, v2) :: fs2) ++ closeObj pad rest
            = ',' :: ('\n' :: (indentChars level ++ (dumpField level (k2, v2)
              ++ (dumpFields level fs2 ++ closeObj pad rest)))) from by
          rw [show dumpFields level ((k2, v2) :: fs2)
              = ',' :: '\n' :: indentChars level ++ dumpField level (k2, v2)
                ++ dumpFields level fs2 from rfl]
          simp]
        rw [skipWs_cons_not_ws _ _ (by decide)]
      have hskipE : skipWs ('\n' :: (indentChars level ++ (dumpField level (k2, v2)
          ++ (dumpFields level fs2 ++ closeObj pad rest))))
          = dumpField level (k2, v2) ++ (dumpFields level fs2 ++ closeObj pad rest) := by
        rw [skipWs_newline_indent]
        rw [show dumpField level (k2, v2) ++ (dumpFields level fs2 ++ closeObj pad rest)
            = quoteString k2 ++ ((':' :: ' ' :: dumpVal level v2)
                ++ (dumpFields level fs2 ++ closeObj pad rest)) from by
          rw [show dumpField level (k2, v2)
              = quoteString k2 ++ ':' :: ' ' :: dumpVal level v2 from rfl]
          simp]
        rw [skipWs_quoteString]
      simp +decide [skipWs_colon, hskipB, hval, hskipD, hskipE,
        parse_dump_members k2 v2 fs2 g level pad rest hw2.1 hw2.2 hsz2 hnd]
termination_by _ v fs _ _ _ _ => 1 + sizeOf v + sizeOf fs
end

theorem json_roundtrip (v : JValue) (h : wfJ v = true) :
    json_loads (json_dumps v) = some v := by
  obtain ⟨c, cs, hcs, hcw, _, _⟩ := dumpVal_head 0 v
  have hskip : skipWs (dumpVal 0 v) = dumpVal 0 v := by
    rw [hcs, skipWs_cons_not_ws _ _ hcw]
  have hfuel : sizeJ v ≤ (dumpVal 0 v).length + 1 := sizeJ_le_dump v 0
  have hparse := parse_dump_val v ((dumpVal 0 v).length + 1) 0 [] h hfuel rfl
  rw [List.append_nil] at hparse
  rw [json_dumps, json_loads]
  show (match parseValue ((dumpVal 0 v).length + 1) (skipWs (dumpVal 0 v)) with
        | none => none
        | some (w, rest) => if (skipWs rest).isEmpty then some w else none) = some v
  rw [hskip, hparse]
  rfl

/-- C1: saving a metadata record and loading it back for the same package id
returns the decoded structure equal to the saved record, for every directory,
package id, prior filesystem state, and JSON-representable record (a
dictionary, so every nested object has distinct keys). -/
theorem save_load_roundtrip (fs : String → Option String)
    (metadata_dir package_id : String) (record : List (String × JValue))
    (h : wfJ (JValue.obj record) = true) :
    load_metadata (save_metadata fs metadata_dir package_id (JValue.obj record))
        metadata_dir package_id
      = .ok (JValue.obj record) := by
  rw [load_metadata]
  rw [show save_metadata fs metadata_dir package_id (JValue.obj record)
        (metadataPath metadata_dir package_id)
      = some (json_dumps (JValue.obj record)) from by simp [save_metadata]]
  simp [json_roundtrip _ h]

/-- C1 witness: a concrete record with nested values, escapes and non-ASCII
text survives the save/load round trip on an initially empty filesystem. -/
theorem save_load_roundtrip_witness :
    load_metadata
      (save_metadata (fun _ => none) "metadata" "dk.digst.mitid"
        (JValue.obj
          [("name", JValue.str "MitID \"app\"\nÆøå"),
           ("summary", JValue.str "A test"),
           ("version_code", JValue.int 42),
           ("categories", JValue.arr [JValue.str "System", JValue.int 0]),
           ("extra", JValue.obj [("nested", JValue.null),
                                 ("flag", JValue.bool true)])]))
      "metadata" "dk.digst.mitid"
      = .ok (JValue.obj
          [("name", JValue.str "MitID \"app\"\nÆøå"),
           ("summary", JValue.str "A test"),
           ("version_code", JValue.int 42),
           ("categories", JValue.arr [JValue.str "System", JValue.int 0]),
           ("extra", JValue.obj [("nested", JValue.null),
                                 ("flag", JValue.bool true)])]) :=
  save_load_roundtrip (fun _ => none) "metadata" "dk.digst.mitid" _ (by rfl)
